import Mathlib

/-!
Verification development for the Stricto Sensu Ciências Naturais dashboard
(`app.py`).  The file embeds the two algorithmic layers of the program:

* the aggregator pipeline (`filtered_df` / `grouped_df` / `calcular_cagr` /
  `ies_stats`), modelled over lists of canonical records, and
* the normalizer (`carregar_dados`), modelled over a data-frame of named
  columns of optional heterogeneous values.

Numeric columns are modelled with `ℚ`/`ℤ` (pandas floats idealized as exact
rationals); the real-valued CAGR formula uses `ℝ` with `Real.rpow` standing
for Python's float `**`.
-/

/-! ### Canonical records and the filter specification -/

/-- One row of the normalized dataset, with the canonical columns used by the
aggregator.  `ano` is `Option ℤ`: `none` models a year that
`pd.to_numeric(..., errors := coerce)` turned into `NaN` (any comparison with
`NaN` is false, and `groupby` drops `NaN` keys). -/
structure Record where
  ano : Option ℤ
  estado : String
  municipio : String
  corede : String
  ies : String
  statusJuridico : String
  programa : String
  areaAvaliacao : String
  areaConhecimento : String
  doutorado : ℤ
  doutoradoProf : ℤ
  mestrado : ℤ
  mestradoProf : ℤ
deriving DecidableEq, Repr, Inhabited

/-- The analysis dimension chosen in the sidebar (`dimensao`). -/
inductive Dimensao
  | programa
  | areaAvaliacao
  | areaConhecimento
deriving DecidableEq, Repr

/-- The metric chosen in the sidebar (`metrica`): one of the four raw
enrollment counts or the derived total. -/
inductive Metrica
  | doutorado
  | doutoradoProf
  | mestrado
  | mestradoProf
  | totalMatriculados
deriving DecidableEq, Repr

/-- Value of the chosen dimension column in a record. -/
def dimValue : Dimensao → Record → String
  | .programa, r => r.programa
  | .areaAvaliacao, r => r.areaAvaliacao
  | .areaConhecimento, r => r.areaConhecimento

/-- Value of the chosen metric column in a record.  For
`Total Matriculados` the code materializes a per-row sum of the four counts
(line `filtered_df[Total Matriculados] = ...sum(axis=1)`). -/
def metricValue : Metrica → Record → ℤ
  | .doutorado, r => r.doutorado
  | .doutoradoProf, r => r.doutoradoProf
  | .mestrado, r => r.mestrado
  | .mestradoProf, r => r.mestradoProf
  | .totalMatriculados, r =>
      r.doutorado + r.doutoradoProf + r.mestrado + r.mestradoProf

/-- A record of the canonical data model: the four enrollment counts are
non-negative. -/
def canonicalRec (r : Record) : Prop :=
  0 ≤ r.doutorado ∧ 0 ≤ r.doutoradoProf ∧ 0 ≤ r.mestrado ∧ 0 ≤ r.mestradoProf

instance : DecidablePred canonicalRec := fun r =>
  inferInstanceAs (Decidable (_ ∧ _ ∧ _ ∧ _))

/-- One user interaction's filter state: the year slider plus the five
multiselects (an empty list is Python-falsy, i.e. no restriction). -/
structure FilterSpec where
  anoMin : ℤ
  anoMax : ℤ
  estados : List String
  municipios : List String
  coredes : List String
  iesList : List String
  statusJuridico : List String
deriving DecidableEq, Repr

/-- The year-range test
`(filtered_df[Ano] >= ano_range[0]) & (filtered_df[Ano] <= ano_range[1])`;
a `NaN` year fails both comparisons. -/
def anoPass (fs : FilterSpec) (r : Record) : Bool :=
  match r.ano with
  | some y => decide (fs.anoMin ≤ y) && decide (y ≤ fs.anoMax)
  | none => false

/-- One `if <multiselect>: filtered_df = filtered_df[...isin(...)]` step. -/
def condFilter (sel : List String) (field : Record → String)
    (d : List Record) : List Record :=
  if sel.isEmpty then d else d.filter (fun r => sel.contains (field r))

/-- `filtered_df`: the year-range filter followed by the five conditional
categorical filters, in source order. -/
def filteredDf (df : List Record) (fs : FilterSpec) : List Record :=
  let d1 := df.filter (fun r => anoPass fs r)
  let d2 := condFilter fs.estados Record.estado d1
  let d3 := condFilter fs.municipios Record.municipio d2
  let d4 := condFilter fs.coredes Record.corede d3
  let d5 := condFilter fs.iesList Record.ies d4
  condFilter fs.statusJuridico Record.statusJuridico d5

/-- A single conjoined predicate equivalent to the sequential filters: the
record passes the year range and, for each categorical filter, the filter is
empty or contains the record's value. -/
def passPred (fs : FilterSpec) (r : Record) : Bool :=
  anoPass fs r &&
  (fs.estados.isEmpty || fs.estados.contains r.estado) &&
  (fs.municipios.isEmpty || fs.municipios.contains r.municipio) &&
  (fs.coredes.isEmpty || fs.coredes.contains r.corede) &&
  (fs.iesList.isEmpty || fs.iesList.contains r.ies) &&
  (fs.statusJuridico.isEmpty || fs.statusJuridico.contains r.statusJuridico)

/-- `fs` with all five categorical multiselects cleared. -/
def clearCats (fs : FilterSpec) : FilterSpec :=
  { fs with estados := [], municipios := [], coredes := [],
            iesList := [], statusJuridico := [] }

/-! ### Time-series grouping (`grouped_df`) -/

/-- Lexicographic comparison of character lists: the codepoint string order
used by pandas when sorting keys, as a structurally recursive Bool. -/
def charListLe : List Char → List Char → Bool
  | [], _ => true
  | _ :: _, [] => false
  | a :: as, b :: bs =>
      if a < b then true else if b < a then false else charListLe as bs

/-- Lexicographic string order. -/
def strLe (a b : String) : Prop := charListLe a.data b.data = true

instance : DecidableRel strLe := fun a b =>
  inferInstanceAs (Decidable (charListLe a.data b.data = true))

instance : IsTotal String strLe where
  total a b := by
    show charListLe a.data b.data = true ∨ charListLe b.data a.data = true
    generalize a.data = xs
    generalize b.data = ys
    induction xs generalizing ys with
    | nil => exact Or.inl rfl
    | cons x xt ih =>
      cases ys with
      | nil => exact Or.inr rfl
      | cons y yt =>
        rcases lt_trichotomy x y with h | h | h
        · exact Or.inl (by simp [charListLe, h])
        · subst h
          rcases ih yt with h2 | h2
          · exact Or.inl (by simp [charListLe, h2])
          · exact Or.inr (by simp [charListLe, h2])
        · exact Or.inr (by simp [charListLe, h])

instance : IsTrans String strLe where
  trans a b c hab hbc := by
    show charListLe a.data c.data = true
    revert hab hbc
    show charListLe a.data b.data = true → charListLe b.data c.data = true →
      charListLe a.data c.data = true
    generalize a.data = xs
    generalize b.data = ys
    generalize c.data = zs
    induction xs generalizing ys zs with
    | nil => intro _ _; rfl
    | cons x xt ih =>
      intro h1 h2
      cases ys with
      | nil => simp [charListLe] at h1
      | cons y yt =>
        cases zs with
        | nil => simp [charListLe] at h2
        | cons z zt =>
          rcases lt_trichotomy x y with hxy | hxy | hxy
          · rcases lt_trichotomy y z with hyz | hyz | hyz
            · simp [charListLe, hxy.trans hyz]
            · subst hyz; simp [charListLe, hxy]
            · simp [charListLe, hyz, asymm hyz] at h2
          · subst hxy
            rcases lt_trichotomy x z with hyz | hyz | hyz
            · simp [charListLe, hyz]
            · subst hyz
              simp only [charListLe, lt_irrefl, if_false] at h1 h2 ⊢
              exact ih yt zt h1 h2
            · simp [charListLe, hyz, asymm hyz] at h2
          · simp [charListLe, hxy, asymm hxy] at h1

/-- Lexicographic order on `(Ano, dimension value)` group keys, as produced
by `groupby([Ano, dimensao])` with its default key sorting. -/
def keyLe (a b : ℤ × String) : Prop :=
  a.1 < b.1 ∨ (a.1 = b.1 ∧ strLe a.2 b.2)

instance : DecidableRel keyLe := fun a b =>
  inferInstanceAs (Decidable (a.1 < b.1 ∨ (a.1 = b.1 ∧ strLe a.2 b.2)))

instance : IsTotal (ℤ × String) keyLe where
  total a b := by
    rcases lt_trichotomy a.1 b.1 with h | h | h
    · exact Or.inl (Or.inl h)
    · rcases IsTotal.total (r := strLe) a.2 b.2 with h2 | h2
      · exact Or.inl (Or.inr ⟨h, h2⟩)
      · exact Or.inr (Or.inr ⟨h.symm, h2⟩)
    · exact Or.inr (Or.inl h)

instance : IsTrans (ℤ × String) keyLe where
  trans a b c hab hbc := by
    rcases hab with h1 | ⟨e1, l1⟩
    · rcases hbc with h2 | ⟨e2, _⟩
      · exact Or.inl (h1.trans h2)
      · exact Or.inl (e2 ▸ h1)
    · rcases hbc with h2 | ⟨e2, l2⟩
      · exact Or.inl (e1 ▸ h2)
      · exact Or.inr ⟨e1.trans e2, IsTrans.trans a.2 b.2 c.2 l1 l2⟩

/-- The sorted distinct `(year, dimension value)` keys of a record list;
records whose year is `NaN` contribute no key (`groupby` drops them). -/
def groupKeys (l : List Record) (dim : Dimensao) : List (ℤ × String) :=
  List.insertionSort keyLe
    ((l.filterMap (fun r => r.ano.map (fun y => (y, dimValue dim r)))).dedup)

/-- One row of `grouped_df`. -/
structure GroupedRow where
  ano : ℤ
  dimVal : String
  value : ℤ
deriving DecidableEq, Repr, Inhabited

/-- Does record `r` belong to group key `k`? -/
def inGroup (dim : Dimensao) (k : ℤ × String) (r : Record) : Bool :=
  r.ano == some k.1 && dimValue dim r == k.2

/-- `grouped_df = filtered_df.groupby([Ano, dimensao])[metrica].sum()`,
with keys sorted lexicographically. -/
def groupedDf (df : List Record) (fs : FilterSpec) (dim : Dimensao)
    (m : Metrica) : List GroupedRow :=
  let l := filteredDf df fs
  (groupKeys l dim).map (fun k =>
    ⟨k.1, k.2, ((l.filter (inGroup dim k)).map (metricValue m)).sum⟩)

/-- Grand total of the time-series table (sum of the metric column of
`grouped_df`). -/
def seriesTotal (df : List Record) (fs : FilterSpec) (dim : Dimensao)
    (m : Metrica) : ℤ :=
  ((groupedDf df fs dim m).map GroupedRow.value).sum

/-- Which of the five categorical filters a tightening acts on. -/
inductive CatFilter
  | estado
  | municipio
  | corede
  | ies
  | statusJuridico
deriving DecidableEq, Repr

/-- The allowed-value list of the given categorical filter. -/
def catList (fs : FilterSpec) : CatFilter → List String
  | .estado => fs.estados
  | .municipio => fs.municipios
  | .corede => fs.coredes
  | .ies => fs.iesList
  | .statusJuridico => fs.statusJuridico

/-- `fs` with one value removed from one categorical filter's allowed list. -/
def removeVal (fs : FilterSpec) (c : CatFilter) (v : String) : FilterSpec :=
  match c with
  | .estado => { fs with estados := fs.estados.erase v }
  | .municipio => { fs with municipios := fs.municipios.erase v }
  | .corede => { fs with coredes := fs.coredes.erase v }
  | .ies => { fs with iesList := fs.iesList.erase v }
  | .statusJuridico => { fs with statusJuridico := fs.statusJuridico.erase v }

/-! ### Institutional ranking (`ies_stats`) -/

/-- Sorted distinct institution names of a record list (the group keys of
`groupby(IES)`). -/
def iesKeys (l : List Record) : List String :=
  List.insertionSort strLe (l.map Record.ies).dedup

/-- `ies_stats = filtered_df.groupby(IES)[metrica].sum()`. -/
def iesStats0 (l : List Record) (m : Metrica) : List (String × ℤ) :=
  (iesKeys l).map (fun k =>
    (k, ((l.filter (fun r => r.ies == k)).map (metricValue m)).sum))

/-- `total_geral = ies_stats[metrica].sum()`. -/
def totalGeral (l : List Record) (m : Metrica) : ℤ :=
  ((iesStats0 l m).map Prod.snd).sum

/-- Floor of a rational, written explicitly (`Int.ediv` floors for a
positive denominator). -/
def floorQ (q : ℚ) : ℤ := q.num / (q.den : ℤ)

/-- `.round(2)`: rounding to two decimal places, modelled in exact rational
arithmetic by round-half-up (`⌊x + 1/2⌋`); no tie is exercised below, where
float rounding could differ. -/
def round2 (q : ℚ) : ℚ := ((floorQ (q * 100 + 1/2) : ℤ) : ℚ) / 100

/-- One row of the annotated `ies_stats` table. -/
structure IesRow where
  ies : String
  value : ℤ
  share : ℚ
deriving DecidableEq, Repr, Inhabited

/-- `ies_stats[Market Share (%)] = (ies_stats[metrica] / total_geral * 100).round(2)`. -/
def iesStatsShares (l : List Record) (m : Metrica) : List IesRow :=
  (iesStats0 l m).map (fun p =>
    ⟨p.1, p.2, round2 ((p.2 : ℚ) / (totalGeral l m : ℚ) * 100)⟩)

/-- Descending order on the summed metric
(`sort_values(metrica, ascending=False)`). -/
def iesGe (a b : IesRow) : Prop := b.value ≤ a.value

instance : DecidableRel iesGe := fun a b =>
  inferInstanceAs (Decidable (b.value ≤ a.value))

instance : IsTotal IesRow iesGe := ⟨fun a b => le_total b.value a.value⟩

instance : IsTrans IesRow iesGe := ⟨fun _ _ _ h1 h2 => le_trans h2 h1⟩

/-- The full ranked table `ies_stats` after `sort_values(metrica, ascending=False)`. -/
def iesStatsSorted (l : List Record) (m : Metrica) : List IesRow :=
  List.insertionSort iesGe (iesStatsShares l m)

/-- `top_ies = ies_stats.head(15)`. -/
def topIes (l : List Record) (m : Metrica) : List IesRow :=
  (iesStatsSorted l m).take 15

/-- The full table with the `Ranking` column
(`ies_stats[Ranking] = range(1, len(ies_stats) + 1)`). -/
def iesRanked (l : List Record) (m : Metrica) : List (ℕ × IesRow) :=
  (iesStatsSorted l m).enum.map (fun p => (p.1 + 1, p.2))

/-! ### Compound annual growth rate (`calcular_cagr`) -/

/-- `calcular_cagr(valores, anos)`, translated branch for branch.  The column
values are exact rationals, so the `pd.isna(primeiro_valor)` disjunct is
vacuous here; the final expression uses real exponentiation (`Real.rpow`) in
place of Python float `**`. -/
noncomputable def calcular_cagr (valores : List ℚ) (anos : List ℤ) : ℝ :=
  if valores.length < 2 then 0
  else
    let primeiro_valor := valores.headD 0
    let ultimo_valor := valores.getLastD 0
    if primeiro_valor = 0 then 0
    else
      let num_anos := anos.getLastD 0 - anos.headD 0
      if num_anos = 0 then 0
      else ((ultimo_valor / primeiro_valor : ℚ) : ℝ) ^ ((1 : ℝ) / (num_anos : ℝ)) - 1

/-- The CAGR the app reports:
`calcular_cagr(grouped_df[metrica], grouped_df[Ano])`, i.e. `calcular_cagr`
applied to the metric and year columns of the `(year, dimension)`-grouped
table. -/
noncomputable def reportedCagr (df : List Record) (fs : FilterSpec)
    (dim : Dimensao) (m : Metrica) : ℝ :=
  calcular_cagr ((groupedDf df fs dim m).map (fun e => (e.value : ℚ)))
    ((groupedDf df fs dim m).map GroupedRow.ano)

/-- Sorted distinct years of the filtered records. -/
def yearKeys (l : List Record) : List ℤ :=
  List.insertionSort (fun a b : ℤ => a ≤ b) (l.filterMap Record.ano).dedup

/-- Per-year totals of the metric over a record list, ordered by year. -/
def yearTotals (l : List Record) (m : Metrica) : List ℤ :=
  (yearKeys l).map (fun y =>
    ((l.filter (fun r => r.ano == some y)).map (metricValue m)).sum)

/-- Modelled from the spec's words (refinement reference, not from the
code): the growth rate computed from the filtered time series collapsed to
one total-metric-per-year sequence ordered by year, with the same edge-case
policy and formula as `calcular_cagr`. -/
noncomputable def specCollapsedCagr (df : List Record) (fs : FilterSpec)
    (m : Metrica) : ℝ :=
  calcular_cagr ((yearTotals (filteredDf df fs) m).map (fun v => (v : ℚ)))
    (yearKeys (filteredDf df fs))

/-! ### The raw data frame and the normalizer (`carregar_dados`) -/

/-- One cell of the raw parquet table: a string, a number (pandas floats
idealized as exact rationals), or a missing value (`NaN`/`None`). -/
inductive Val
  | str (s : String)
  | num (q : ℚ)
  | null
deriving DecidableEq, Repr

/-- A data frame: a row count and an ordered list of named columns. -/
structure Frame where
  n : ℕ
  cols : List (String × List Val)
deriving DecidableEq, Repr

/-- The column labels, in order. -/
def colNames (f : Frame) : List String := f.cols.map Prod.fst

/-- `df[name]` as a read: the first column with the given label. -/
def getCol (f : Frame) (name : String) : Option (List Val) :=
  (f.cols.find? (fun p => p.1 == name)).map Prod.snd

/-- `df[name] = col`: replace every column with the given label, or append a
new column when the label is absent. -/
def setCol (f : Frame) (name : String) (c : List Val) : Frame :=
  if (colNames f).contains name then
    { f with cols := f.cols.map (fun p => if p.1 == name then (name, c) else p) }
  else
    { f with cols := f.cols ++ [(name, c)] }

/-- Python's substring test `pat in hay`. -/
def containsSubstr (hay pat : String) : Bool :=
  hay.toList.tails.any (fun t => pat.toList.isPrefixOf t)

/-- `pd.to_numeric(·, errors="coerce")` on one cell: numbers pass through,
missing stays missing, and a string is parsed when it is a plain decimal
literal (modelled for unsigned integer literals) and coerced to `NaN`
otherwise. -/
def toNumericVal : Val → Val
  | .num q => .num q
  | .null => .null
  | .str s =>
      if s.length ≠ 0 ∧ s.toList.all Char.isDigit then .num (s.toNat! : ℚ)
      else .null

/-- `.fillna(v)` on one cell. -/
def fillnaVal (v : Val) : Val → Val
  | .null => v
  | w => w

/-- `.astype(str)` on one cell: `NaN` prints as the string `"nan"`; numbers
print via `toString` (standing for Python's `str`). -/
def valToStr : Val → Val
  | .str s => .str s
  | .num q => .str (toString q)
  | .null => .str "nan"

/-- Truncation of a rational toward zero, as in a float-to-int cast. -/
def truncQ (q : ℚ) : ℤ := q.num.tdiv (q.den : ℤ)

/-- `.astype(int)` on one cell: fails (raises) on `NaN` and on a
non-numeric string. -/
def astypeIntVal : Val → Option Val
  | .num q => some (.num ((truncQ q : ℤ) : ℚ))
  | .null => none
  | .str s =>
      if s.length ≠ 0 ∧ s.toList.all Char.isDigit then
        some (.num (s.toNat! : ℚ))
      else none

/-- The column-rename table `mapa_colunas`. -/
def mapaColunas : List (String × String) :=
  [("UF", "Estado"),
   ("Área Avaliação", "Área de Avaliação"),
   ("Área Conhecimento", "Área de Conhecimento")]

/-- `df.rename(columns=m)` on one label. -/
def renameName (m : List (String × String)) (s : String) : String :=
  match m.find? (fun p => p.1 == s) with
  | some p => p.2
  | none => s

/-- `df.rename(columns=m, inplace=True)`. -/
def renameCols (m : List (String × String)) (f : Frame) : Frame :=
  { f with cols := f.cols.map (fun p => (renameName m p.1, p.2)) }

/-- `df[Ano] = pd.to_numeric(df[Ano], errors="coerce")`; raises (`none`)
when the `Ano` column is absent. -/
def stepAno (f : Frame) : Option Frame :=
  (getCol f "Ano").map (fun c => setCol f "Ano" (c.map toNumericVal))

/-- The column labels containing `"COREDE"` (`corede_cols`). -/
def coredeAliases (f : Frame) : List String :=
  (colNames f).filter (fun nm => containsSubstr nm "COREDE")

/-- The COREDE reconciliation block: exact column (fill nulls with `"NA"`,
coerce to string), else first fuzzy-named column coerced to string, else a
synthesized constant `"NA"` column. -/
def stepCorede (f : Frame) : Frame :=
  if (colNames f).contains "COREDE" then
    setCol f "COREDE"
      ((((getCol f "COREDE").getD []).map (fillnaVal (.str "NA"))).map valToStr)
  else
    match coredeAliases f with
    | [] => setCol f "COREDE" (List.replicate f.n (.str "NA"))
    | nm :: _ => setCol f "COREDE" (((getCol f nm).getD []).map valToStr)

/-- The four enrollment-count column labels (`colunas_matriculados`). -/
def colunasMatriculados : List String :=
  ["Doutorado - Matriculado", "Doutorado Profissional - Matriculado",
   "Mestrado - Matriculado", "Mestrado Profissional - Matriculado"]

/-- `.fillna(0).astype(int)` cell by cell down a column; `none` when some
cell cannot be cast. -/
def astypeIntCol : List Val → Option (List Val)
  | [] => some []
  | v :: t =>
      match astypeIntVal (fillnaVal (.num 0) v), astypeIntCol t with
      | some w, some t' => some (w :: t')
      | _, _ => none

/-- One iteration of `df[coluna] = df[coluna].fillna(0).astype(int)`;
raises (`none`) when the column is absent or a cell cannot be cast. -/
def stepCount (nm : String) (f : Frame) : Option Frame :=
  match getCol f nm with
  | none => none
  | some c =>
      match astypeIntCol c with
      | none => none
      | some c' => some (setCol f nm c')

/-- The `for coluna in colunas_matriculados` loop. -/
def stepCounts (f : Frame) : Option Frame :=
  stepCount "Doutorado - Matriculado" f >>=
  stepCount "Doutorado Profissional - Matriculado" >>=
  stepCount "Mestrado - Matriculado" >>=
  stepCount "Mestrado Profissional - Matriculado"

/-- The column labels containing `"IES"` or `"Instituição"` (`ies_cols`). -/
def iesAliases (f : Frame) : List String :=
  (colNames f).filter
    (fun nm => containsSubstr nm "IES" || containsSubstr nm "Instituição")

/-- The IES reconciliation block: nothing when the column exists, else adopt
the first fuzzy-named column as-is, else synthesize a constant
`"Não informado"` column. -/
def stepIes (f : Frame) : Frame :=
  if (colNames f).contains "IES" then f
  else
    match iesAliases f with
    | [] => setCol f "IES" (List.replicate f.n (.str "Não informado"))
    | nm :: _ => setCol f "IES" (((getCol f nm).getD []))

/-- The column labels containing `"Status"`, `"Jurídico"` or `"Categoria"`
(`status_cols`). -/
def statusAliases (f : Frame) : List String :=
  (colNames f).filter
    (fun nm => containsSubstr nm "Status" || containsSubstr nm "Jurídico" ||
      containsSubstr nm "Categoria")

/-- The Status Jurídico reconciliation block, mirroring `stepIes`. -/
def stepStatusJuridico (f : Frame) : Frame :=
  if (colNames f).contains "Status Jurídico" then f
  else
    match statusAliases f with
    | [] => setCol f "Status Jurídico" (List.replicate f.n (.str "Não informado"))
    | nm :: _ => setCol f "Status Jurídico" (((getCol f nm).getD []))

/-- The two final `fillna("Não informado")` assignments on `IES` and
`Status Jurídico`. -/
def stepFill (f : Frame) : Frame :=
  let f1 := setCol f "IES"
    (((getCol f "IES").getD []).map (fillnaVal (.str "Não informado")))
  setCol f1 "Status Jurídico"
    (((getCol f1 "Status Jurídico").getD []).map (fillnaVal (.str "Não informado")))

/-- `carregar_dados`, minus the `read_parquet` I/O: the whole normalization
pipeline in source order.  `none` models an uncaught exception (a required
column absent, or an impossible integer cast). -/
def carregar_dados (f : Frame) : Option Frame := do
  let f1 ← stepAno f
  let f2 := stepCorede (renameCols mapaColunas f1)
  let f3 ← stepCounts f2
  pure (stepFill (stepStatusJuridico (stepIes f3)))

/-- `n` is a column label of `f` and every column labelled `n` holds exactly
the cells `c` (assignments via `setCol` replace all duplicates alike). -/
def colAll (f : Frame) (n : String) (c : List Val) : Prop :=
  n ∈ colNames f ∧ ∀ p ∈ f.cols, p.1 = n → p.2 = c

/-- The invariant shape of a successfully normalized frame: `Ano` holds
`to_numeric`-fixed cells, no synonym label survives, `COREDE` is all-string,
the four count columns are integer-valued, and `IES` / `Status Jurídico`
hold no nulls. -/
def NormalOut (g : Frame) : Prop :=
  (∃ c, colAll g "Ano" c ∧ ∀ v ∈ c, toNumericVal v = v) ∧
  (∀ p ∈ mapaColunas, ¬ p.1 ∈ colNames g) ∧
  (∃ c, colAll g "COREDE" c ∧ ∀ v ∈ c, ∃ s, v = Val.str s) ∧
  (∀ nm ∈ colunasMatriculados, ∃ c, colAll g nm c ∧
    ∀ v ∈ c, ∃ k : ℤ, v = Val.num (k : ℚ)) ∧
  (∃ c, colAll g "IES" c ∧ ∀ v ∈ c, v ≠ Val.null) ∧
  (∃ c, colAll g "Status Jurídico" c ∧ ∀ v ∈ c, v ≠ Val.null)

/-- How one normalized count cell relates to its source cell: it is an
integer, a null source became `0`, and it is non-negative whenever the
source was not a negative number. -/
def intNonnegOf (v w : Val) : Prop :=
  (v = Val.null → w = Val.num 0) ∧
  ∃ k : ℤ, w = Val.num (k : ℚ) ∧
    ((∀ q : ℚ, v = Val.num q → 0 ≤ q) → 0 ≤ k)


/-! ### Concrete inputs for witnesses and counterexamples -/

/-- A baseline canonical record used by the concrete witnesses below. -/
def recBase : Record where
  ano := some 2019
  estado := "RS"
  municipio := "Porto Alegre"
  corede := "Serra"
  ies := "U1"
  statusJuridico := "Pública"
  programa := "Física"
  areaAvaliacao := "Astronomia"
  areaConhecimento := "Exatas"
  doutorado := 100
  doutoradoProf := 0
  mestrado := 0
  mestradoProf := 0

/-- An unrestricted 2019-2020 filter specification. -/
def fsOpen : FilterSpec where
  anoMin := 2019
  anoMax := 2020
  estados := []
  municipios := []
  coredes := []
  iesList := []
  statusJuridico := []

/-- Two programs in 2019 (100 each) and one in 2020 (400): the year totals
are 200 and 400, but the first row of the `(year, program)`-grouped table
holds 100. -/
def dfCagr : List Record :=
  [recBase, { recBase with programa := "Química" },
   { recBase with ano := some 2020, doutorado := 400 }]

/-- Two records in two different states. -/
def dfTwoEstados : List Record :=
  [recBase, { recBase with estado := "SC", ies := "U2", doutorado := 1 }]

/-- The open filter restricted to state `"RS"`. -/
def fsEstadoRS : FilterSpec := { fsOpen with estados := ["RS"] }

/-- A filter whose year range excludes every record of `recBase`'s era. -/
def fsFuture : FilterSpec := { fsOpen with anoMin := 2030, anoMax := 2031 }

/-- Two institutions with metric 300 and 100. -/
def dfShare : List Record :=
  [{ recBase with doutorado := 300 },
   { recBase with ies := "U2", doutorado := 100 }]

/-- 48 institutions with one enrollment each: every market share is
100/48 = 2.0833..., which rounds to 2.08, so the 48 shares sum to 99.84. -/
def df48 : List Record :=
  (List.range 48).map (fun i =>
    { recBase with ies := (Char.ofNat (65 + i)).toString, doutorado := 1 })

/-- A raw frame with no `COREDE` column but a fuzzy-named `COREDE_NOME`
column holding a null. -/
def frameAliasCorede : Frame where
  n := 1
  cols := [("Ano", [.num 2020]),
           ("COREDE_NOME", [.null]),
           ("Doutorado - Matriculado", [.num 1]),
           ("Doutorado Profissional - Matriculado", [.num 1]),
           ("Mestrado - Matriculado", [.num 1]),
           ("Mestrado Profissional - Matriculado", [.num 1])]

/-- A raw frame whose doctoral count column holds a negative number. -/
def frameNegCount : Frame where
  n := 1
  cols := [("Ano", [.num 2020]),
           ("Doutorado - Matriculado", [.num (-1)]),
           ("Doutorado Profissional - Matriculado", [.num 0]),
           ("Mestrado - Matriculado", [.num 0]),
           ("Mestrado Profissional - Matriculado", [.num 0])]


/-- The normalized output of `frameAliasCorede` under `carregar_dados`:
the fuzzy-named `COREDE_NOME` column is adopted via `astype(str)`, so its
null cell becomes the string `"nan"`. -/
def frameAliasCoredeOut : Frame where
  n := 1
  cols := [("Ano", [.num 2020]),
           ("COREDE_NOME", [.null]),
           ("Doutorado - Matriculado", [.num 1]),
           ("Doutorado Profissional - Matriculado", [.num 1]),
           ("Mestrado - Matriculado", [.num 1]),
           ("Mestrado Profissional - Matriculado", [.num 1]),
           ("COREDE", [.str "nan"]),
           ("IES", [.str "Não informado"]),
           ("Status Jurídico", [.str "Não informado"])]

/-! ## Theorems -/

/-! ### Filtering (helper lemmas) -/

theorem condFilter_eq_filter (sel : List String) (field : Record → String)
    (d : List Record) :
    condFilter sel field d =
      d.filter (fun r => sel.isEmpty || sel.contains (field r)) := by
  unfold condFilter
  by_cases h : sel.isEmpty
  · simp [h]
  · simp [h]

theorem filteredDf_eq_filter (df : List Record) (fs : FilterSpec) :
    filteredDf df fs = df.filter (passPred fs) := by
  unfold filteredDf
  simp only [condFilter_eq_filter, List.filter_filter]
  apply List.filter_congr
  intro r _
  unfold passPred
  cases anoPass fs r <;>
    cases (fs.estados.isEmpty || fs.estados.contains r.estado) <;>
    cases (fs.municipios.isEmpty || fs.municipios.contains r.municipio) <;>
    cases (fs.coredes.isEmpty || fs.coredes.contains r.corede) <;>
    cases (fs.iesList.isEmpty || fs.iesList.contains r.ies) <;>
    cases (fs.statusJuridico.isEmpty || fs.statusJuridico.contains r.statusJuridico) <;>
    rfl

/-- C2: the filter step retains exactly the records whose year lies in the
inclusive slider range and whose five categorical fields each belong to the
corresponding allowed set, empty selections being skipped and all constraints
conjoined; clearing all five categorical selections leaves exactly the
year-range filter. -/
theorem C2_filter_retains_exactly (df : List Record) (fs : FilterSpec) :
    filteredDf df fs = df.filter (passPred fs) ∧
    filteredDf df (clearCats fs) = df.filter (fun r => anoPass fs r) := by
  refine ⟨filteredDf_eq_filter df fs, ?_⟩
  rw [filteredDf_eq_filter]
  apply List.filter_congr
  intro r _
  cases h : r.ano <;> simp [passPred, clearCats, anoPass, h]

/-! ### Partitioning a sum over group keys (helper lemmas) -/

theorem sum_ite_eq_of_mem {K : Type} [DecidableEq K] (ks : List K) (k0 : K)
    (x : ℤ) (hnd : ks.Nodup) (hk : k0 ∈ ks) :
    (ks.map (fun k => if k0 = k then x else 0)).sum = x := by
  induction ks with
  | nil => cases hk
  | cons a t ih =>
    rcases List.mem_cons.mp hk with h | h
    · subst h
      simp only [List.map_cons, List.sum_cons, if_pos rfl]
      have hz : (t.map (fun k => if k0 = k then x else 0)).sum = 0 := by
        apply List.sum_eq_zero
        intro y hy
        rcases List.mem_map.mp hy with ⟨k, hkt, hke⟩
        rw [if_neg] at hke
        · exact hke.symm
        · intro e; exact (List.nodup_cons.mp hnd).1 (e ▸ hkt)
      rw [hz, if_pos True.intro]; ring
    · have hne : k0 ≠ a := by
        intro e; exact (List.nodup_cons.mp hnd).1 (e ▸ h)
      simp only [List.map_cons, List.sum_cons, if_neg hne, zero_add]
      exact ih (List.nodup_cons.mp hnd).2 h

theorem sum_partition {K R : Type} [DecidableEq K] (ks : List K)
    (l : List R) (kf : R → K) (m : R → ℤ) (hnd : ks.Nodup)
    (hcov : ∀ r ∈ l, kf r ∈ ks) :
    (ks.map (fun k => ((l.filter (fun r => decide (kf r = k))).map m).sum)).sum =
      (l.map m).sum := by
  induction l with
  | nil => simp
  | cons r t ih =>
    have hstep : ∀ k : K,
        (((r :: t).filter (fun r' => decide (kf r' = k))).map m).sum =
          (if kf r = k then m r else 0) +
            ((t.filter (fun r' => decide (kf r' = k))).map m).sum := by
      intro k
      rw [List.filter_cons]
      by_cases h : kf r = k
      · simp [h]
      · simp [h]
    simp only [hstep]
    rw [List.sum_map_add, sum_ite_eq_of_mem ks (kf r) (m r) hnd
      (hcov r (List.mem_cons_self r t)), ih (fun r' hr' => hcov r' (List.mem_cons_of_mem _ hr'))]
    simp

theorem nodup_groupKeys (l : List Record) (dim : Dimensao) :
    (groupKeys l dim).Nodup :=
  ((List.perm_insertionSort keyLe _).nodup_iff).mpr
    (List.nodup_dedup _)

theorem mem_groupKeys_of_mem {l : List Record} {dim : Dimensao} {r : Record}
    {y : ℤ} (hr : r ∈ l) (hy : r.ano = some y) :
    (y, dimValue dim r) ∈ groupKeys l dim := by
  apply (List.perm_insertionSort keyLe _).mem_iff.mpr
  apply List.mem_dedup.mpr
  apply List.mem_filterMap.mpr
  exact ⟨r, hr, by rw [hy]; rfl⟩

theorem ano_isSome_of_mem_filtered {df : List Record} {fs : FilterSpec}
    {r : Record} (hr : r ∈ filteredDf df fs) : ∃ y, r.ano = some y := by
  rw [filteredDf_eq_filter] at hr
  have hp := List.of_mem_filter hr
  unfold passPred at hp
  simp only [Bool.and_eq_true] at hp
  have ha := hp.1.1.1.1.1
  unfold anoPass at ha
  cases h : r.ano with
  | none => rw [h] at ha; cases ha
  | some y => exact ⟨y, rfl⟩

/-- The total of the time-series table is the plain sum of the metric over
the filtered records. -/
theorem seriesTotal_eq (df : List Record) (fs : FilterSpec) (dim : Dimensao)
    (m : Metrica) :
    seriesTotal df fs dim m = ((filteredDf df fs).map (metricValue m)).sum := by
  classical
  set l := filteredDf df fs with hl
  have hmap : seriesTotal df fs dim m =
      ((groupKeys l dim).map (fun k =>
        ((l.filter (inGroup dim k)).map (metricValue m)).sum)).sum := by
    unfold seriesTotal groupedDf
    rw [List.map_map]
    rfl
  rw [hmap]
  have hre : ((groupKeys l dim).map (fun k =>
      ((l.filter (inGroup dim k)).map (metricValue m)).sum)).sum =
      (((groupKeys l dim).map (fun k => (some k.1, k.2))).map (fun k' =>
        ((l.filter (fun r => decide ((r.ano, dimValue dim r) = k'))).map
          (metricValue m)).sum)).sum := by
    rw [List.map_map]
    congr 1
    apply List.map_congr_left
    intro k _
    congr 1
    congr 1
    apply List.filter_congr
    intro r _
    unfold inGroup
    rw [Bool.eq_iff_iff]
    simp [Prod.ext_iff]

  rw [hre]
  apply sum_partition
  · apply List.Nodup.map
    · intro a b hab
      cases a; cases b
      simp only [Prod.mk.injEq, Option.some.injEq] at hab
      simp [hab.1, hab.2]
    · exact nodup_groupKeys l dim
  · intro r hr
    rcases ano_isSome_of_mem_filtered hr with ⟨y, hy⟩
    apply List.mem_map.mpr
    refine ⟨(y, dimValue dim r), mem_groupKeys_of_mem hr hy, ?_⟩
    rw [hy]

theorem sum_filter_le_of_imp {R : Type} (l : List R) (p q : R → Bool)
    (m : R → ℤ) (himp : ∀ r, p r = true → q r = true)
    (hnn : ∀ r ∈ l, 0 ≤ m r) :
    ((l.filter p).map m).sum ≤ ((l.filter q).map m).sum := by
  induction l with
  | nil => simp
  | cons r t ih =>
    have ht := ih (fun r' hr' => hnn r' (List.mem_cons_of_mem _ hr'))
    have hr0 := hnn r (List.mem_cons_self r t)
    rw [List.filter_cons, List.filter_cons]
    by_cases hp : p r
    · rw [if_pos hp, if_pos (himp r hp)]
      simpa using add_le_add_left ht (m r)
    · rw [if_neg hp]
      by_cases hq : q r
      · rw [if_pos hq]
        simp only [List.map_cons, List.sum_cons]
        exact le_add_of_nonneg_of_le hr0 ht
      · rw [if_neg hq]
        exact ht

theorem metric_nonneg {r : Record} (h : canonicalRec r) (m : Metrica) :
    0 ≤ metricValue m r := by
  obtain ⟨h1, h2, h3, h4⟩ := h
  cases m <;> simp [metricValue] <;> omega

theorem catPass_erase {l : List String} {v x : String}
    (h : ¬ l.erase v = []) :
    ((l.erase v).isEmpty || (l.erase v).contains x) = true →
      (l.isEmpty || l.contains x) = true := by
  intro hx
  rcases Bool.or_eq_true_iff.mp hx with he | hc
  · exact absurd (List.isEmpty_iff.mp he) h
  · apply Bool.or_eq_true_iff.mpr
    right
    have : x ∈ l := List.mem_of_mem_erase (List.elem_iff.mp hc)
    exact List.elem_iff.mpr this

theorem passPred_removeVal {fs : FilterSpec} {c : CatFilter} {v : String}
    (hne : catList (removeVal fs c v) c ≠ []) (r : Record)
    (h : passPred (removeVal fs c v) r = true) : passPred fs r = true := by
  unfold passPred at h ⊢
  simp only [Bool.and_eq_true] at h ⊢
  obtain ⟨⟨⟨⟨⟨h1, h2⟩, h3⟩, h4⟩, h5⟩, h6⟩ := h
  cases c with
  | estado => exact ⟨⟨⟨⟨⟨h1, catPass_erase hne h2⟩, h3⟩, h4⟩, h5⟩, h6⟩
  | municipio => exact ⟨⟨⟨⟨⟨h1, h2⟩, catPass_erase hne h3⟩, h4⟩, h5⟩, h6⟩
  | corede => exact ⟨⟨⟨⟨⟨h1, h2⟩, h3⟩, catPass_erase hne h4⟩, h5⟩, h6⟩
  | ies => exact ⟨⟨⟨⟨⟨h1, h2⟩, h3⟩, h4⟩, catPass_erase hne h5⟩, h6⟩
  | statusJuridico => exact ⟨⟨⟨⟨⟨h1, h2⟩, h3⟩, h4⟩, h5⟩, catPass_erase hne h6⟩

/-- C7 counterexample: removing the last value of a singleton filter list
turns the filter off (`if estados:` is falsy on the empty selection), so the
time-series total strictly increases. -/
theorem C7_counterexample :
    seriesTotal dfTwoEstados fsEstadoRS .programa .doutorado <
      seriesTotal dfTwoEstados (removeVal fsEstadoRS .estado "RS")
        .programa .doutorado := by decide

/-- C7 (amended): over canonical records, removing one value from a single
categorical filter never increases the time-series total, provided the
allowed set stays non-empty (removing its last value disables the filter
instead). -/
theorem C7_tightening_monotonic (df : List Record) (fs : FilterSpec)
    (c : CatFilter) (v : String) (dim : Dimensao) (m : Metrica)
    (hne : catList (removeVal fs c v) c ≠ [])
    (hcan : ∀ r ∈ df, canonicalRec r) :
    seriesTotal df (removeVal fs c v) dim m ≤ seriesTotal df fs dim m := by
  rw [seriesTotal_eq, seriesTotal_eq, filteredDf_eq_filter, filteredDf_eq_filter]
  apply sum_filter_le_of_imp
  · intro r hr
    exact passPred_removeVal hne r hr
  · intro r hr
    exact metric_nonneg (hcan r hr) m

/-- Witness for `C7_tightening_monotonic` at a concrete input whose filter
list keeps one element after the removal. -/
theorem C7_witness :
    catList (removeVal { fsOpen with estados := ["RS", "SC"] } .estado "SC")
      .estado ≠ [] ∧
    (∀ r ∈ dfTwoEstados, canonicalRec r) ∧
    seriesTotal dfTwoEstados
      (removeVal { fsOpen with estados := ["RS", "SC"] } .estado "SC")
      .programa .doutorado ≤
      seriesTotal dfTwoEstados { fsOpen with estados := ["RS", "SC"] }
        .programa .doutorado :=
  ⟨by decide, by decide,
    C7_tightening_monotonic dfTwoEstados _ .estado "SC" .programa .doutorado
      (by decide) (by decide)⟩

/-- C8: when the filters exclude every record, the time series, the ranked
institution table and the ranking view are all empty, the time-series total
is `0`, and the reported growth rate is the degenerate `0`; every branch is
total, so nothing raises. -/
theorem C8_empty_result (df : List Record) (fs : FilterSpec) (dim : Dimensao)
    (m : Metrica) (h : filteredDf df fs = []) :
    groupedDf df fs dim m = [] ∧
    iesStatsSorted (filteredDf df fs) m = [] ∧
    iesRanked (filteredDf df fs) m = [] ∧
    seriesTotal df fs dim m = 0 ∧
    reportedCagr df fs dim m = 0 := by
  have hg : groupedDf df fs dim m = [] := by
    unfold groupedDf groupKeys
    rw [h]
    rfl
  refine ⟨hg, ?_, ?_, ?_, ?_⟩
  · rw [h]; rfl
  · rw [h]; rfl
  · unfold seriesTotal; rw [hg]; rfl
  · unfold reportedCagr; rw [hg]; simp [calcular_cagr]

/-- Witness for `C8_empty_result`: one 2019 record against a 2030-2031
year range. -/
theorem C8_witness :
    filteredDf [recBase] fsFuture = [] ∧
    (groupedDf [recBase] fsFuture .programa .doutorado = [] ∧
     iesStatsSorted (filteredDf [recBase] fsFuture) .doutorado = [] ∧
     iesRanked (filteredDf [recBase] fsFuture) .doutorado = [] ∧
     seriesTotal [recBase] fsFuture .programa .doutorado = 0 ∧
     reportedCagr [recBase] fsFuture .programa .doutorado = 0) :=
  ⟨by decide, C8_empty_result [recBase] fsFuture .programa .doutorado (by decide)⟩

theorem enumFrom_map_fst_succ {α : Type} (l : List α) (n : ℕ) :
    (l.enumFrom n).map (fun p => p.1 + 1) = List.range' (n + 1) l.length := by
  induction l generalizing n with
  | nil => rfl
  | cons x xs ih =>
    rw [List.enumFrom_cons, List.map_cons, ih, List.length_cons, List.range'_succ]

/-- C6: the institutional ranking sums the metric per institution over the
record list, sorts descending by the summed metric, carries rank `1..K` in
that order, and the display view is exactly the first 15 rows of the full
ranked table. -/
theorem C6_ranking (l : List Record) (m : Metrica) :
    (iesStatsSorted l m).Sorted iesGe ∧
    topIes l m = (iesStatsSorted l m).take 15 ∧
    (iesRanked l m).map Prod.fst = List.range' 1 (iesStatsSorted l m).length ∧
    (∀ row ∈ iesStatsSorted l m,
      row.value = ((l.filter (fun r => r.ies == row.ies)).map (metricValue m)).sum) ∧
    ((iesStatsSorted l m).map IesRow.ies).Perm (l.map Record.ies).dedup := by
  refine ⟨List.sorted_insertionSort iesGe _, rfl, ?_, ?_, ?_⟩
  · unfold iesRanked
    rw [List.map_map]
    exact enumFrom_map_fst_succ _ 0
  · intro row hrow
    have hmem : row ∈ iesStatsShares l m :=
      (List.perm_insertionSort iesGe _).mem_iff.mp hrow
    rcases List.mem_map.mp hmem with ⟨p, hp, hpe⟩
    rcases List.mem_map.mp hp with ⟨k, _, hke⟩
    subst hpe
    simp only
    rw [← hke]
  · have h1 : ((iesStatsSorted l m).map IesRow.ies).Perm
        ((iesStatsShares l m).map IesRow.ies) :=
      (List.perm_insertionSort iesGe _).map IesRow.ies
    have h2 : (iesStatsShares l m).map IesRow.ies = iesKeys l := by
      unfold iesStatsShares iesStats0
      rw [List.map_map, List.map_map]
      exact (List.map_congr_left fun k _ => rfl).trans (List.map_id _)
    rw [h2] at h1
    exact h1.trans (List.perm_insertionSort strLe _)

/-! ### Market-share arithmetic (helper lemmas) -/

theorem floorQ_eq (q : ℚ) : floorQ q = ⌊q⌋ := Rat.floor_def.symm

theorem round2_eq (q : ℚ) : round2 q = ((round (q * 100) : ℤ) : ℚ) / 100 := by
  rw [round2, floorQ_eq, round_eq]

theorem round2_abs_sub (q : ℚ) : |round2 q - q| ≤ 1 / 200 := by
  rw [round2_eq]
  have h := abs_sub_round (q * 100)
  have he : ((round (q * 100) : ℤ) : ℚ) / 100 - q =
      -((q * 100 - ((round (q * 100) : ℤ) : ℚ)) / 100) := by ring
  rw [he, abs_neg, abs_div]
  have h100 : |(100 : ℚ)| = 100 := by norm_num
  rw [h100]
  linarith

theorem round2_nonneg {q : ℚ} (h : 0 ≤ q) : 0 ≤ round2 q := by
  rw [round2, floorQ_eq]
  have : (0 : ℤ) ≤ ⌊q * 100 + 1 / 2⌋ := Int.floor_nonneg.mpr (by linarith)
  positivity

theorem sum_map_sub' {R : Type} (l : List R) (f g : R → ℚ) :
    (l.map (fun x => f x - g x)).sum = (l.map f).sum - (l.map g).sum := by
  induction l with
  | nil => simp
  | cons a t ih => simp only [List.map_cons, List.sum_cons, ih]; ring

theorem abs_sum_le' (l : List ℚ) : |l.sum| ≤ (l.map (fun x => |x|)).sum := by
  induction l with
  | nil => simp
  | cons a t ih =>
    simp only [List.sum_cons, List.map_cons]
    exact (abs_add _ _).trans (by linarith)

theorem mem_iesStatsSorted {l : List Record} {m : Metrica} {row : IesRow}
    (h : row ∈ iesStatsSorted l m) :
    ∃ p ∈ iesStats0 l m, row =
      ⟨p.1, p.2, round2 ((p.2 : ℚ) / (totalGeral l m : ℚ) * 100)⟩ := by
  have hmem : row ∈ iesStatsShares l m :=
    (List.perm_insertionSort iesGe _).mem_iff.mp h
  rcases List.mem_map.mp hmem with ⟨p, hp, hpe⟩
  exact ⟨p, hp, hpe.symm⟩

/-- The row shares in the full (sorted) table sum to `100` up to `1/200` per
row, whenever the grand total is nonzero. -/
theorem sharesSum_bound (l : List Record) (m : Metrica)
    (hT : totalGeral l m ≠ 0) :
    |(((iesStatsSorted l m).map IesRow.share).sum) - 100| ≤
      ((iesStatsSorted l m).length : ℚ) / 200 := by
  have hperm : ((iesStatsSorted l m).map IesRow.share).Perm
      ((iesStatsShares l m).map IesRow.share) :=
    (List.perm_insertionSort iesGe _).map IesRow.share
  have hlen0 : (iesStatsSorted l m).length = (iesStatsShares l m).length :=
    (List.perm_insertionSort iesGe _).length_eq
  rw [hperm.sum_eq, hlen0]
  have hshare : (iesStatsShares l m).map IesRow.share =
      (iesStats0 l m).map
        (fun p => round2 ((p.2 : ℚ) / (totalGeral l m : ℚ) * 100)) := by
    unfold iesStatsShares
    rw [List.map_map]
    rfl
  have htrue : ((iesStats0 l m).map
      (fun p => (p.2 : ℚ) / (totalGeral l m : ℚ) * 100)).sum = 100 := by
    have hpt : ((iesStats0 l m).map
        (fun p => (p.2 : ℚ) / (totalGeral l m : ℚ) * 100)).sum =
        ((iesStats0 l m).map
          (fun p => (p.2 : ℚ) * (100 / (totalGeral l m : ℚ)))).sum := by
      congr 1
      apply List.map_congr_left
      intro p _
      ring
    rw [hpt, List.sum_map_mul_right]
    have hcast : ((iesStats0 l m).map (fun p => ((p.2 : ℤ) : ℚ))).sum =
        ((totalGeral l m : ℤ) : ℚ) := by
      unfold totalGeral
      rw [Int.cast_list_sum, List.map_map]
      rfl
    rw [hcast]
    have hT' : ((totalGeral l m : ℤ) : ℚ) ≠ 0 := Int.cast_ne_zero.mpr hT
    field_simp
  have hsplit : ((iesStatsShares l m).map IesRow.share).sum - 100 =
      ((iesStats0 l m).map (fun p =>
        round2 ((p.2 : ℚ) / (totalGeral l m : ℚ) * 100) -
          (p.2 : ℚ) / (totalGeral l m : ℚ) * 100)).sum := by
    rw [sum_map_sub', hshare, htrue]
  rw [hsplit]
  have hlen : (iesStatsShares l m).length = (iesStats0 l m).length :=
    List.length_map _ _
  rw [hlen]
  calc |((iesStats0 l m).map (fun p =>
        round2 ((p.2 : ℚ) / (totalGeral l m : ℚ) * 100) -
          (p.2 : ℚ) / (totalGeral l m : ℚ) * 100)).sum|
      ≤ (((iesStats0 l m).map (fun p =>
          round2 ((p.2 : ℚ) / (totalGeral l m : ℚ) * 100) -
            (p.2 : ℚ) / (totalGeral l m : ℚ) * 100)).map (fun x => |x|)).sum :=
        abs_sum_le' _
    _ ≤ ((iesStats0 l m).map (fun _ => (1 : ℚ) / 200)).sum := by
        rw [List.map_map]
        apply List.sum_le_sum
        intro p _
        exact round2_abs_sub _
    _ = ((iesStats0 l m).length : ℚ) / 200 := by
        rw [List.map_const', List.sum_replicate, nsmul_eq_mul]
        ring

/-- C5 counterexample: 48 institutions with one enrollment each give 48
shares of `2.08` that sum to `99.84`, which is farther than `0.1` from
`100`. -/
theorem C5_counterexample :
    ¬ |(((iesStatsSorted df48 .doutorado).map IesRow.share).sum) - 100| ≤
      1 / 10 := by
  have hone : ∀ p ∈ iesStats0 df48 .doutorado, p.2 = 1 := by decide
  have hT : totalGeral df48 .doutorado = 48 := by decide
  have hlen : (iesStatsSorted df48 .doutorado).length = 48 := by decide
  have hval : round2 ((1 : ℚ) / ((48 : ℤ) : ℚ) * 100) = 208 / 100 := by
    rw [round2, floorQ_eq]
    norm_num
  have hall : ∀ x ∈ (iesStatsSorted df48 .doutorado).map IesRow.share,
      x = (208 : ℚ) / 100 := by
    intro x hx
    rcases List.mem_map.mp hx with ⟨row, hrow, hxe⟩
    rcases mem_iesStatsSorted hrow with ⟨p, hp, hpe⟩
    subst hxe
    rw [hpe]
    show round2 ((p.2 : ℚ) / (totalGeral df48 .doutorado : ℚ) * 100) = 208 / 100
    rw [hone p hp, hT]
    exact_mod_cast hval
  have hrepl : (iesStatsSorted df48 .doutorado).map IesRow.share =
      List.replicate 48 ((208 : ℚ) / 100) := by
    apply List.eq_replicate_iff.mpr
    exact ⟨by rw [List.length_map, hlen], hall⟩
  rw [hrepl, List.sum_replicate, nsmul_eq_mul]
  rw [abs_le]
  push_neg
  intro h1
  exfalso
  norm_num at h1

/-- C5 (amended): each institution's market share is its summed metric over
the grand total, times 100, rounded to 2 decimals, and when the grand total
is nonzero the shares sum to `100` within `0.005` per institution (hence
within `0.1` only when at most 20 institutions are listed). -/
theorem C5_market_share (l : List Record) (m : Metrica)
    (hT : totalGeral l m ≠ 0) :
    (∀ row ∈ iesStatsSorted l m,
      row.share = round2 ((row.value : ℚ) / (totalGeral l m : ℚ) * 100)) ∧
    |(((iesStatsSorted l m).map IesRow.share).sum) - 100| ≤
      ((iesStatsSorted l m).length : ℚ) / 200 := by
  refine ⟨?_, sharesSum_bound l m hT⟩
  intro row hrow
  rcases mem_iesStatsSorted hrow with ⟨p, _, hpe⟩
  rw [hpe]

/-- Witness for `C5_market_share` at two institutions with metrics 300 and
100 (grand total 400). -/
theorem C5_witness :
    totalGeral dfShare .doutorado ≠ 0 ∧
    ((∀ row ∈ iesStatsSorted dfShare .doutorado,
      row.share = round2 ((row.value : ℚ) /
        (totalGeral dfShare .doutorado : ℚ) * 100)) ∧
    |(((iesStatsSorted dfShare .doutorado).map IesRow.share).sum) - 100| ≤
      ((iesStatsSorted dfShare .doutorado).length : ℚ) / 200) :=
  ⟨by decide, C5_market_share dfShare .doutorado (by decide)⟩

theorem stats0_value_nonneg {l : List Record} {m : Metrica}
    (hcan : ∀ r ∈ l, canonicalRec r) :
    ∀ p ∈ iesStats0 l m, 0 ≤ p.2 := by
  intro p hp
  rcases List.mem_map.mp hp with ⟨k, _, hke⟩
  rw [← hke]
  apply List.sum_nonneg
  intro x hx
  rcases List.mem_map.mp hx with ⟨r, hr, hre⟩
  rw [← hre]
  exact metric_nonneg (hcan r (List.mem_of_mem_filter hr)) m

theorem totalGeral_nonneg {l : List Record} {m : Metrica}
    (hcan : ∀ r ∈ l, canonicalRec r) : 0 ≤ totalGeral l m := by
  apply List.sum_nonneg
  intro x hx
  rcases List.mem_map.mp hx with ⟨p, hp, hpe⟩
  rw [← hpe]
  exact stats0_value_nonneg hcan p hp

theorem share_nonneg_of_mem {l : List Record} {m : Metrica} {row : IesRow}
    (hcan : ∀ r ∈ l, canonicalRec r) (h : row ∈ iesStatsSorted l m) :
    0 ≤ row.share := by
  rcases mem_iesStatsSorted h with ⟨p, hp, hpe⟩
  have hv : (0 : ℤ) ≤ p.2 := stats0_value_nonneg hcan p hp
  have hT : (0 : ℤ) ≤ totalGeral l m := totalGeral_nonneg hcan
  rw [hpe]
  apply round2_nonneg
  have h1 : (0 : ℚ) ≤ (p.2 : ℚ) := by exact_mod_cast hv
  have h2 : (0 : ℚ) ≤ (totalGeral l m : ℚ) := by exact_mod_cast hT
  have := div_nonneg h1 h2
  linarith

theorem sum_take_le_sum (l : List ℚ) (n : ℕ) (h : ∀ x ∈ l, 0 ≤ x) :
    (l.take n).sum ≤ l.sum := by
  conv_rhs => rw [← List.take_append_drop n l]
  rw [List.sum_append]
  have : 0 ≤ (l.drop n).sum := by
    apply List.sum_nonneg
    intro x hx
    exact h x (List.mem_of_mem_drop hx)
  linarith

/-- C10: market shares are computed against the grand total of the full
filtered table before the top-15 truncation: the display view is literally
the first 15 rows of the full ranked table, each displayed share equals the
full-table share formula over the grand total, and over canonical records
the displayed shares sum to at most `100` plus the rounding allowance of
`1/200` per ranked institution. -/
theorem C10_share_before_truncation (l : List Record) (m : Metrica)
    (hcan : ∀ r ∈ l, canonicalRec r) :
    topIes l m = (iesStatsSorted l m).take 15 ∧
    (∀ row ∈ topIes l m, row ∈ iesStatsSorted l m ∧
      row.share = round2 ((row.value : ℚ) / (totalGeral l m : ℚ) * 100)) ∧
    ((topIes l m).map IesRow.share).sum ≤
      100 + ((iesStatsSorted l m).length : ℚ) / 200 := by
  refine ⟨rfl, ?_, ?_⟩
  · intro row hrow
    have hmem : row ∈ iesStatsSorted l m := List.mem_of_mem_take hrow
    rcases mem_iesStatsSorted hmem with ⟨p, _, hpe⟩
    exact ⟨hmem, by rw [hpe]⟩
  · have htake : ((topIes l m).map IesRow.share).sum ≤
        (((iesStatsSorted l m).map IesRow.share).take 15).sum := by
      unfold topIes
      rw [List.map_take]
    have hmono : (((iesStatsSorted l m).map IesRow.share).take 15).sum ≤
        ((iesStatsSorted l m).map IesRow.share).sum := by
      apply sum_take_le_sum
      intro x hx
      rcases List.mem_map.mp hx with ⟨row, hrow, hxe⟩
      rw [← hxe]
      exact share_nonneg_of_mem hcan hrow
    have hfull : ((iesStatsSorted l m).map IesRow.share).sum ≤
        100 + ((iesStatsSorted l m).length : ℚ) / 200 := by
      by_cases hT : totalGeral l m = 0
      · have hz : ∀ x ∈ (iesStatsSorted l m).map IesRow.share, x = 0 := by
          intro x hx
          rcases List.mem_map.mp hx with ⟨row, hrow, hxe⟩
          rcases mem_iesStatsSorted hrow with ⟨p, _, hpe⟩
          rw [← hxe, hpe]
          show round2 ((p.2 : ℚ) / (totalGeral l m : ℚ) * 100) = 0
          rw [hT]
          norm_num [round2, floorQ]
        rw [List.sum_eq_zero hz]
        positivity
      · have hb := sharesSum_bound l m hT
        rw [abs_le] at hb
        linarith [hb.2]
    linarith [htake]

/-- Witness for `C10_share_before_truncation` at the two-institution
table. -/
theorem C10_witness :
    (∀ r ∈ dfShare, canonicalRec r) ∧
    (topIes dfShare .doutorado = (iesStatsSorted dfShare .doutorado).take 15 ∧
    (∀ row ∈ topIes dfShare .doutorado, row ∈ iesStatsSorted dfShare .doutorado ∧
      row.share = round2 ((row.value : ℚ) /
        (totalGeral dfShare .doutorado : ℚ) * 100)) ∧
    ((topIes dfShare .doutorado).map IesRow.share).sum ≤
      100 + ((iesStatsSorted dfShare .doutorado).length : ℚ) / 200) :=
  ⟨by decide, C10_share_before_truncation dfShare .doutorado (by decide)⟩

/-! ### CAGR (helper lemmas) -/

theorem getLastD_map {α β : Type} (f : α → β) (l : List α) (d : α) :
    (l.map f).getLastD (f d) = f (l.getLastD d) := by
  induction l generalizing d with
  | nil => rfl
  | cons a t ih => rw [List.map_cons, List.getLastD_cons, List.getLastD_cons, ih]

theorem getLastD_map_ne {α β : Type} (f : α → β) (l : List α) (d : α)
    (d' : β) (h : l ≠ []) : (l.map f).getLastD d' = f (l.getLastD d) := by
  cases l with
  | nil => exact absurd rfl h
  | cons a t =>
    rw [List.map_cons, List.getLastD_cons, List.getLastD_cons, getLastD_map]

/-- C1 (amended): the reported growth rate is `calcular_cagr` over the
`(year, dimension value)`-grouped table, whose rows are ordered by
`(year, dimension value)`; it equals
`(last_row / first_row) ^ (1 / (last_row_year - first_row_year)) - 1` on the
first and last rows of that table, and equals `0` when the table has fewer
than two rows, when the first row's value is `0`, or when the first and last
rows carry the same year; every branch is total, so it never raises. -/
theorem C1_cagr_characterization (df : List Record) (fs : FilterSpec)
    (dim : Dimensao) (m : Metrica) :
    List.Sorted keyLe
      ((groupedDf df fs dim m).map (fun e => (e.ano, e.dimVal))) ∧
    reportedCagr df fs dim m =
      (if (groupedDf df fs dim m).length < 2 then 0
       else if ((groupedDf df fs dim m).headD default).value = 0 then 0
       else if ((groupedDf df fs dim m).getLastD default).ano =
           ((groupedDf df fs dim m).headD default).ano then 0
       else ((((groupedDf df fs dim m).getLastD default).value : ℝ) /
           (((groupedDf df fs dim m).headD default).value : ℝ)) ^
           ((1 : ℝ) / ((((groupedDf df fs dim m).getLastD default).ano : ℝ) -
             (((groupedDf df fs dim m).headD default).ano : ℝ))) - 1) := by
  constructor
  · have hkeys : (groupedDf df fs dim m).map (fun e => (e.ano, e.dimVal)) =
        groupKeys (filteredDf df fs) dim := by
      unfold groupedDf
      rw [List.map_map]
      exact (List.map_congr_left fun k _ => rfl).trans (List.map_id _)
    rw [hkeys]
    exact List.sorted_insertionSort keyLe _
  · set g := groupedDf df fs dim m with hgdef
    unfold reportedCagr calcular_cagr
    rw [← hgdef]
    by_cases h2 : g.length < 2
    · rw [if_pos (by simpa using h2), if_pos h2]
    · have hne : g ≠ [] := by
        intro e
        rw [e] at h2
        exact h2 (by norm_num)
      obtain ⟨a, t, hg⟩ := List.exists_cons_of_ne_nil hne
      have hA : (g.map (fun e => (e.value : ℚ))).headD 0 =
          ((g.headD default).value : ℚ) := by
        rw [hg]; rfl
      have hB : (g.map (fun e => (e.value : ℚ))).getLastD 0 =
          ((g.getLastD default).value : ℚ) :=
        getLastD_map_ne _ g default 0 hne
      have hAy : (g.map GroupedRow.ano).headD 0 = (g.headD default).ano := by
        rw [hg]; rfl
      have hBy : (g.map GroupedRow.ano).getLastD 0 = (g.getLastD default).ano :=
        getLastD_map_ne _ g default 0 hne
      rw [if_neg (by simpa using h2), if_neg h2, hA, hB, hAy, hBy]
      by_cases hz : (g.headD default).value = 0
      · rw [if_pos (by exact_mod_cast hz), if_pos hz]
      · rw [if_neg (by exact_mod_cast hz), if_neg hz]
        by_cases hy : (g.getLastD default).ano = (g.headD default).ano
        · rw [if_pos (by omega), if_pos hy]
        · rw [if_neg (by omega), if_neg hy]
          push_cast
          rfl

/-- C1 counterexample: with two programs in 2019 (100 + 100) and one in
2020 (400), the app computes `calcular_cagr` on the `(year, program)`-grouped
column (first row 100, last row 400, one year apart), reporting
`(400/100)^1 - 1 = 3`; the spec's collapse-per-year series (200, 400) gives
`(400/200)^1 - 1 = 1`. -/
theorem C1_counterexample :
    reportedCagr dfCagr fsOpen .programa .doutorado = 3 ∧
    specCollapsedCagr dfCagr fsOpen .doutorado = 1 ∧
    reportedCagr dfCagr fsOpen .programa .doutorado ≠
      specCollapsedCagr dfCagr fsOpen .doutorado := by
  have hg : groupedDf dfCagr fsOpen .programa .doutorado =
      [⟨2019, "Física", 100⟩, ⟨2019, "Química", 100⟩, ⟨2020, "Física", 400⟩] := by
    decide
  have hyk : yearKeys (filteredDf dfCagr fsOpen) = [2019, 2020] := by decide
  have hyt : yearTotals (filteredDf dfCagr fsOpen) .doutorado = [200, 400] := by
    decide
  have h1 : reportedCagr dfCagr fsOpen .programa .doutorado = 3 := by
    unfold reportedCagr
    rw [hg]
    show calcular_cagr [((100 : ℤ) : ℚ), ((100 : ℤ) : ℚ), ((400 : ℤ) : ℚ)]
      [2019, 2019, 2020] = 3
    unfold calcular_cagr
    norm_num
  have h2 : specCollapsedCagr dfCagr fsOpen .doutorado = 1 := by
    unfold specCollapsedCagr
    rw [hyk, hyt]
    show calcular_cagr [((200 : ℤ) : ℚ), ((400 : ℤ) : ℚ)] [2019, 2020] = 1
    unfold calcular_cagr
    norm_num
  refine ⟨h1, h2, ?_⟩
  rw [h1, h2]
  norm_num

/-! ### Frame lemmas -/

theorem mem_colNames_of_getCol {f : Frame} {n : String} {c : List Val}
    (h : getCol f n = some c) : n ∈ colNames f := by
  unfold getCol at h
  rcases Option.map_eq_some'.mp h with ⟨p, hp, _⟩
  have hmem := List.mem_of_find?_eq_some hp
  have hbeq := List.find?_some hp
  have : p.1 = n := by simpa using hbeq
  exact this ▸ List.mem_map.mpr ⟨p, hmem, rfl⟩

theorem getCol_isSome_of_mem {f : Frame} {n : String}
    (h : n ∈ colNames f) : ∃ c, getCol f n = some c := by
  unfold getCol
  cases hfind : f.cols.find? (fun q => q.1 == n) with
  | none =>
    exfalso
    rcases List.mem_map.mp h with ⟨p, hp, hpe⟩
    have h2 := List.find?_eq_none.mp hfind p hp
    simp [hpe] at h2
  | some q => exact ⟨q.2, rfl⟩

theorem getCol_eq_none_of_not_mem {f : Frame} {n : String}
    (h : ¬ n ∈ colNames f) : getCol f n = none := by
  unfold getCol
  rw [List.find?_eq_none.mpr]
  · rfl
  · intro p hp hbeq
    exact h (List.mem_map.mpr ⟨p, hp, by simpa using hbeq⟩)

theorem colNames_setCol_of_mem {f : Frame} {n : String} (c : List Val)
    (h : n ∈ colNames f) : colNames (setCol f n c) = colNames f := by
  unfold setCol
  rw [if_pos (by simpa [List.elem_iff] using h)]
  show (f.cols.map _).map Prod.fst = f.cols.map Prod.fst
  rw [List.map_map]
  apply List.map_congr_left
  intro p _
  by_cases hp : p.1 = n
  · simp [hp]
  · simp [hp]

theorem colNames_setCol_of_not_mem {f : Frame} {n : String} (c : List Val)
    (h : ¬ n ∈ colNames f) : colNames (setCol f n c) = colNames f ++ [n] := by
  unfold setCol
  rw [if_neg (by simpa [List.elem_iff] using h)]
  show (f.cols ++ [(n, c)]).map Prod.fst = f.cols.map Prod.fst ++ [n]
  rw [List.map_append]
  rfl

theorem mem_colNames_setCol {f : Frame} {n m : String} {c : List Val}
    (h : m ∈ colNames (setCol f n c)) : m ∈ colNames f ∨ m = n := by
  by_cases hn : n ∈ colNames f
  · rw [colNames_setCol_of_mem c hn] at h
    exact Or.inl h
  · rw [colNames_setCol_of_not_mem c hn] at h
    rcases List.mem_append.mp h with h | h
    · exact Or.inl h
    · exact Or.inr (by simpa using h)

theorem mem_colNames_setCol_of_mem {f : Frame} {n m : String} (c : List Val)
    (h : m ∈ colNames f) : m ∈ colNames (setCol f n c) := by
  by_cases hn : n ∈ colNames f
  · rw [colNames_setCol_of_mem c hn]; exact h
  · rw [colNames_setCol_of_not_mem c hn]; exact List.mem_append_left _ h

theorem n_setCol (f : Frame) (n : String) (c : List Val) :
    (setCol f n c).n = f.n := by
  unfold setCol
  by_cases h : (colNames f).contains n
  · rw [if_pos h]
  · rw [if_neg h]

theorem colAll_setCol_self (f : Frame) (n : String) (c : List Val) :
    colAll (setCol f n c) n c := by
  constructor
  · by_cases hn : n ∈ colNames f
    · rw [colNames_setCol_of_mem c hn]; exact hn
    · rw [colNames_setCol_of_not_mem c hn]
      exact List.mem_append_right _ (by simp)
  · intro p hp hpn
    unfold setCol at hp
    by_cases hn : (colNames f).contains n
    · rw [if_pos hn] at hp
      rcases List.mem_map.mp hp with ⟨q, _, hqe⟩
      by_cases hq : q.1 = n
      · rw [if_pos (by simpa using hq)] at hqe
        rw [← hqe]
      · rw [if_neg (by simpa using hq)] at hqe
        exact absurd (hqe ▸ hpn) hq
    · rw [if_neg hn] at hp
      rcases List.mem_append.mp hp with hp | hp
      · exfalso
        apply hn
        simp only [List.elem_iff]
        exact hpn ▸ List.mem_map.mpr ⟨p, hp, rfl⟩
      · simp only [List.mem_singleton] at hp
        rw [hp]

theorem colAll_setCol_ne {f : Frame} {n : String} {c : List Val}
    (hc : colAll f n c) {m : String} (hne : m ≠ n) (c' : List Val) :
    colAll (setCol f m c') n c := by
  obtain ⟨hmem, hall⟩ := hc
  constructor
  · exact mem_colNames_setCol_of_mem c' hmem
  · intro p hp hpn
    unfold setCol at hp
    by_cases hm : (colNames f).contains m
    · rw [if_pos hm] at hp
      rcases List.mem_map.mp hp with ⟨q, hq, hqe⟩
      by_cases hqm : q.1 = m
      · rw [if_pos (by simpa using hqm)] at hqe
        have hpm : p.1 = m := by rw [← hqe]
        rw [hpm] at hpn
        exact absurd hpn hne
      · rw [if_neg (by simpa using hqm)] at hqe
        exact hall p (hqe ▸ hq) hpn
    · rw [if_neg hm] at hp
      rcases List.mem_append.mp hp with hp | hp
      · exact hall p hp hpn
      · simp only [List.mem_singleton] at hp
        have hpm : p.1 = m := by rw [hp]
        rw [hpm] at hpn
        exact absurd hpn hne

theorem getCol_of_colAll {f : Frame} {n : String} {c : List Val}
    (h : colAll f n c) : getCol f n = some c := by
  obtain ⟨hmem, hall⟩ := h
  rcases getCol_isSome_of_mem hmem with ⟨c0, hc0⟩
  have h2 := hc0
  unfold getCol at h2
  rcases Option.map_eq_some'.mp h2 with ⟨p, hp, hpe⟩
  have hn : p.1 = n := by simpa using List.find?_some hp
  rw [hc0, ← hpe, hall p (List.mem_of_find?_eq_some hp) hn]

theorem setCol_eq_self {f : Frame} {n : String} {c : List Val}
    (h : colAll f n c) : setCol f n c = f := by
  obtain ⟨hmem, hall⟩ := h
  unfold setCol
  rw [if_pos (by simpa [List.elem_iff] using hmem)]
  have hmap : f.cols.map (fun p => if p.1 == n then (n, c) else p) = f.cols := by
    apply (List.map_congr_left ?_).trans (List.map_id _)
    intro p hp
    by_cases hpn : p.1 = n
    · rw [if_pos (by simpa using hpn), ← hall p hp hpn, ← hpn]
      rfl
    · rw [if_neg (by simpa using hpn)]
      rfl
  rw [hmap]

theorem getCol_setCol_self (f : Frame) (n : String) (c : List Val) :
    getCol (setCol f n c) n = some c :=
  getCol_of_colAll (colAll_setCol_self f n c)

theorem getCol_setCol_ne {n m : String} (f : Frame) (c : List Val)
    (hne : m ≠ n) : getCol (setCol f n c) m = getCol f m := by
  have hnm : ¬ n = m := fun h => hne h.symm
  unfold setCol getCol
  by_cases hn : (colNames f).contains n
  · rw [if_pos hn]
    show Option.map Prod.snd
        ((f.cols.map (fun p => if p.1 == n then (n, c) else p)).find?
          (fun p => p.1 == m)) =
      Option.map Prod.snd (f.cols.find? (fun p => p.1 == m))
    induction f.cols with
    | nil => rfl
    | cons p t ih =>
      rw [List.map_cons]
      by_cases hp : p.1 = n
      · rw [if_pos (by simpa using hp)]
        rw [List.find?_cons_of_neg _ (by simpa using hnm),
          List.find?_cons_of_neg _ (by simp [hp, hnm])]
        exact ih
      · rw [if_neg (by simpa using hp)]
        by_cases hm : p.1 = m
        · rw [List.find?_cons_of_pos _ (by simpa using hm),
            List.find?_cons_of_pos _ (by simpa using hm)]
        · rw [List.find?_cons_of_neg _ (by simpa using hm),
            List.find?_cons_of_neg _ (by simpa using hm)]
          exact ih
  · rw [if_neg hn]
    show Option.map Prod.snd
        ((f.cols ++ [(n, c)]).find? (fun p => p.1 == m)) = _
    rw [List.find?_append]
    have hlast : ([(n, c)].find? (fun p => p.1 == m)) = none := by
      simp [hnm]
    rw [hlast, Option.or_none]

theorem renameName_eq_of_no_key {m : List (String × String)} {s : String}
    (h : ∀ q ∈ m, q.1 ≠ s) : renameName m s = s := by
  unfold renameName
  rw [List.find?_eq_none.mpr]
  intro q hq
  simpa using h q hq

theorem renameName_cases (m : List (String × String)) (s : String) :
    renameName m s = s ∨ ∃ q ∈ m, s = q.1 ∧ renameName m s = q.2 := by
  unfold renameName
  cases hfind : m.find? (fun p => p.1 == s) with
  | none => exact Or.inl rfl
  | some q =>
    refine Or.inr ⟨q, List.mem_of_find?_eq_some hfind, ?_, rfl⟩
    have := List.find?_some hfind
    simpa using (by simpa using this : q.1 = s).symm

theorem colNames_renameCols (m : List (String × String)) (f : Frame) :
    colNames (renameCols m f) = (colNames f).map (renameName m) := by
  unfold colNames renameCols
  rw [List.map_map, List.map_map]
  rfl

theorem renameCols_eq_self {m : List (String × String)} {f : Frame}
    (h : ∀ q ∈ m, ¬ q.1 ∈ colNames f) : renameCols m f = f := by
  unfold renameCols
  have hmap : f.cols.map (fun p => (renameName m p.1, p.2)) = f.cols := by
    apply (List.map_congr_left ?_).trans (List.map_id _)
    intro p hp
    rw [renameName_eq_of_no_key (fun q hq he =>
      h q hq (he ▸ List.mem_map.mpr ⟨p, hp, rfl⟩))]
    rfl
  rw [hmap]

theorem getCol_renameCols {m : List (String × String)} {n : String}
    (f : Frame) (h1 : renameName m n = n)
    (h2 : ∀ s, renameName m s = n → s = n) :
    getCol (renameCols m f) n = getCol f n := by
  unfold renameCols getCol
  show Option.map Prod.snd
      ((f.cols.map (fun p => (renameName m p.1, p.2))).find?
        (fun p => p.1 == n)) =
    Option.map Prod.snd (f.cols.find? (fun p => p.1 == n))
  induction f.cols with
  | nil => rfl
  | cons p t ih =>
    rw [List.map_cons]
    by_cases hp : p.1 = n
    · rw [List.find?_cons_of_pos _ (by simp [hp, h1]),
        List.find?_cons_of_pos _ (by simpa using hp)]
      show some (renameName m p.1, p.2).2 = some p.2
      rfl
    · rw [List.find?_cons_of_neg _ (by simp; intro he; exact hp (h2 _ he)),
        List.find?_cons_of_neg _ (by simpa using hp)]
      exact ih

theorem colAll_renameCols {m : List (String × String)} {n : String}
    {c : List Val} {f : Frame} (hc : colAll f n c)
    (h1 : renameName m n = n) (h2 : ∀ s, renameName m s = n → s = n) :
    colAll (renameCols m f) n c := by
  obtain ⟨hmem, hall⟩ := hc
  constructor
  · rw [colNames_renameCols]
    exact List.mem_map.mpr ⟨n, hmem, h1⟩
  · intro p hp hpn
    rcases List.mem_map.mp hp with ⟨q, hq, hqe⟩
    have hq1 : q.1 = n := h2 q.1 (by rw [← hpn, ← hqe])
    have : p.2 = q.2 := by rw [← hqe]
    rw [this]
    exact hall q hq hq1

/-! ### Cell-level lemmas -/

theorem toNumericVal_shape (v : Val) :
    (∃ q, toNumericVal v = Val.num q) ∨ toNumericVal v = Val.null := by
  cases v with
  | num q => exact Or.inl ⟨q, rfl⟩
  | null => exact Or.inr rfl
  | str s =>
    simp only [toNumericVal]
    by_cases h : s.length ≠ 0 ∧ s.toList.all Char.isDigit
    · exact Or.inl ⟨(s.toNat! : ℚ), if_pos h⟩
    · exact Or.inr (if_neg h)

theorem toNumericVal_idem (v : Val) :
    toNumericVal (toNumericVal v) = toNumericVal v := by
  rcases toNumericVal_shape v with ⟨q, hq⟩ | hn
  · rw [hq]
    rfl
  · rw [hn]
    rfl

theorem valToStr_isStr (v : Val) : ∃ s, valToStr v = Val.str s := by
  cases v with
  | str s => exact ⟨s, rfl⟩
  | num q => exact ⟨toString q, rfl⟩
  | null => exact ⟨"nan", rfl⟩

theorem fillnaVal_of_ne_null {v : Val} (w : Val) (h : v ≠ Val.null) :
    fillnaVal w v = v := by
  cases v with
  | str s => rfl
  | num q => rfl
  | null => exact absurd rfl h

theorem fillnaVal_ne_null {w : Val} (v : Val) (h : w ≠ Val.null) :
    fillnaVal w v ≠ Val.null := by
  cases v with
  | str s => simp [fillnaVal]
  | num q => simp [fillnaVal]
  | null => exact h

theorem truncQ_intCast (k : ℤ) : truncQ ((k : ℤ) : ℚ) = k := by
  unfold truncQ
  rw [Rat.num_intCast, Rat.den_intCast]
  exact Int.tdiv_one k

theorem truncQ_nonneg {q : ℚ} (h : 0 ≤ q) : 0 ≤ truncQ q :=
  Int.tdiv_nonneg (Rat.num_nonneg.mpr h) (Int.ofNat_nonneg _)

theorem astypeIntVal_shape {v w : Val} (h : astypeIntVal v = some w) :
    ∃ k : ℤ, w = Val.num ((k : ℤ) : ℚ) := by
  cases v with
  | num q =>
    refine ⟨truncQ q, ?_⟩
    simpa [astypeIntVal] using h.symm
  | null => simp [astypeIntVal] at h
  | str s =>
    by_cases hp : s.length ≠ 0 ∧ s.toList.all Char.isDigit
    · simp only [astypeIntVal, if_pos hp] at h
      refine ⟨(s.toNat! : ℤ), ?_⟩
      have hc : ((s.toNat! : ℤ) : ℚ) = ((s.toNat! : ℕ) : ℚ) := by push_cast; rfl
      rw [hc]
      simpa using h.symm
    · simp only [astypeIntVal, if_neg hp] at h
      cases h

theorem astypeIntVal_int_fixed (k : ℤ) :
    astypeIntVal (Val.num ((k : ℤ) : ℚ)) = some (Val.num ((k : ℤ) : ℚ)) := by
  simp only [astypeIntVal, truncQ_intCast]

theorem astypeIntVal_fillna_spec {v w : Val}
    (h : astypeIntVal (fillnaVal (Val.num 0) v) = some w) : intNonnegOf v w := by
  cases v with
  | null =>
    have hw : w = Val.num ((truncQ 0 : ℤ) : ℚ) := by
      simpa [fillnaVal, astypeIntVal] using h.symm
    have h0 : truncQ 0 = 0 := by decide
    rw [h0] at hw
    have hw0 : w = Val.num 0 := by rw [hw]; norm_num
    exact ⟨fun _ => hw0, 0, by simpa using hw0, fun _ => le_refl 0⟩
  | num q =>
    have hw : w = Val.num ((truncQ q : ℤ) : ℚ) := by
      simpa [fillnaVal, astypeIntVal] using h.symm
    refine ⟨?_, truncQ q, hw, ?_⟩
    · intro hc
      cases hc
    · intro hnn
      exact truncQ_nonneg (hnn q rfl)
  | str s =>
    have h2 : astypeIntVal (Val.str s) = some w := h
    rcases astypeIntVal_shape h2 with ⟨k, hk⟩
    by_cases hp : s.length ≠ 0 ∧ s.toList.all Char.isDigit
    · simp only [astypeIntVal, if_pos hp] at h2
      refine ⟨?_, (s.toNat! : ℤ), ?_, ?_⟩
      · intro hc
        cases hc
      · have hc2 : ((s.toNat! : ℤ) : ℚ) = ((s.toNat! : ℕ) : ℚ) := by push_cast; rfl
        rw [hc2]
        exact (Option.some_injective _ h2).symm
      · intro hx
        exact Int.ofNat_nonneg _
    · simp only [astypeIntVal, if_neg hp] at h2
      cases h2

theorem astypeIntCol_forall₂ {c c' : List Val}
    (h : astypeIntCol c = some c') : List.Forall₂ intNonnegOf c c' := by
  induction c generalizing c' with
  | nil =>
    cases (by simpa [astypeIntCol] using h.symm : c' = [])
    exact List.Forall₂.nil
  | cons v t ih =>
    unfold astypeIntCol at h
    cases hw : astypeIntVal (fillnaVal (Val.num 0) v) with
    | none => rw [hw] at h; cases h
    | some w =>
      rw [hw] at h
      cases ht : astypeIntCol t with
      | none => rw [ht] at h; cases h
      | some t' =>
        rw [ht] at h
        cases (by simpa using h.symm : c' = w :: t')
        exact List.Forall₂.cons (astypeIntVal_fillna_spec hw) (ih ht)

theorem astypeIntCol_shape {c c' : List Val} (h : astypeIntCol c = some c') :
    ∀ w ∈ c', ∃ k : ℤ, w = Val.num ((k : ℤ) : ℚ) := by
  induction c generalizing c' with
  | nil =>
    cases (by simpa [astypeIntCol] using h.symm : c' = [])
    intro w hw
    cases hw
  | cons v t ih =>
    unfold astypeIntCol at h
    cases hw : astypeIntVal (fillnaVal (Val.num 0) v) with
    | none => rw [hw] at h; cases h
    | some w0 =>
      rw [hw] at h
      cases ht : astypeIntCol t with
      | none => rw [ht] at h; cases h
      | some t' =>
        rw [ht] at h
        cases (by simpa using h.symm : c' = w0 :: t')
        intro w hwmem
        rcases List.mem_cons.mp hwmem with he | hmem
        · exact he ▸ astypeIntVal_shape hw
        · exact ih ht w hmem

theorem astypeIntCol_int_fixed {c : List Val}
    (h : ∀ v ∈ c, ∃ k : ℤ, v = Val.num ((k : ℤ) : ℚ)) :
    astypeIntCol c = some c := by
  induction c with
  | nil => rfl
  | cons v t ih =>
    rcases h v (List.mem_cons_self v t) with ⟨k, hk⟩
    unfold astypeIntCol
    have hfill : fillnaVal (Val.num 0) v = v := by rw [hk]; rfl
    rw [hfill, hk, astypeIntVal_int_fixed,
      ih (fun w hw => h w (List.mem_cons_of_mem _ hw))]

/-! ### Step-level lemmas -/

theorem stepAno_some {f f1 : Frame} (h : stepAno f = some f1) :
    ∃ c, getCol f "Ano" = some c ∧ f1 = setCol f "Ano" (c.map toNumericVal) := by
  unfold stepAno at h
  cases hc : getCol f "Ano" with
  | none => rw [hc] at h; cases h
  | some c =>
    rw [hc] at h
    exact ⟨c, rfl, (Option.some_injective _ h).symm⟩

theorem stepCount_some {nm : String} {f f' : Frame}
    (h : stepCount nm f = some f') :
    ∃ c c', getCol f nm = some c ∧ astypeIntCol c = some c' ∧
      f' = setCol f nm c' := by
  unfold stepCount at h
  cases hc : getCol f nm with
  | none => rw [hc] at h; cases h
  | some c =>
    rw [hc] at h
    have h2 : (match astypeIntCol c with
      | none => none
      | some c' => some (setCol f nm c')) = some f' := h
    cases hc' : astypeIntCol c with
    | none => rw [hc'] at h2; cases h2
    | some c' =>
      rw [hc'] at h2
      exact ⟨c, c', rfl, hc', (Option.some_injective _ h2).symm⟩

theorem stepCounts_some {f f3 : Frame} (h : stepCounts f = some f3) :
    ∃ fa fb fc, stepCount "Doutorado - Matriculado" f = some fa ∧
      stepCount "Doutorado Profissional - Matriculado" fa = some fb ∧
      stepCount "Mestrado - Matriculado" fb = some fc ∧
      stepCount "Mestrado Profissional - Matriculado" fc = some f3 := by
  unfold stepCounts at h
  cases ha : stepCount "Doutorado - Matriculado" f with
  | none => rw [ha] at h; cases h
  | some fa =>
    rw [ha] at h
    have h1 : stepCount "Doutorado Profissional - Matriculado" fa >>=
        stepCount "Mestrado - Matriculado" >>=
        stepCount "Mestrado Profissional - Matriculado" = some f3 := h
    cases hb : stepCount "Doutorado Profissional - Matriculado" fa with
    | none => rw [hb] at h1; cases h1
    | some fb =>
      rw [hb] at h1
      have h2 : stepCount "Mestrado - Matriculado" fb >>=
          stepCount "Mestrado Profissional - Matriculado" = some f3 := h1
      cases hc : stepCount "Mestrado - Matriculado" fb with
      | none => rw [hc] at h2; cases h2
      | some fc =>
        rw [hc] at h2
        have h3 : stepCount "Mestrado Profissional - Matriculado" fc =
            some f3 := h2
        exact ⟨fa, fb, fc, rfl, hb, hc, h3⟩

theorem carregar_some {f g : Frame} (h : carregar_dados f = some g) :
    ∃ c0 f3, getCol f "Ano" = some c0 ∧
      stepCounts (stepCorede (renameCols mapaColunas
        (setCol f "Ano" (c0.map toNumericVal)))) = some f3 ∧
      g = stepFill (stepStatusJuridico (stepIes f3)) := by
  unfold carregar_dados at h
  cases ha : stepAno f with
  | none => rw [ha] at h; cases h
  | some f1 =>
    rw [ha] at h
    rcases stepAno_some ha with ⟨c0, hc0, hf1⟩
    have h1 : stepCounts (stepCorede (renameCols mapaColunas f1)) >>=
        (fun f3 => some (stepFill (stepStatusJuridico (stepIes f3)))) =
        some g := h
    cases hs : stepCounts (stepCorede (renameCols mapaColunas f1)) with
    | none =>
      rw [hs] at h1
      cases h1
    | some f3 =>
      rw [hs] at h1
      have h2 : some (stepFill (stepStatusJuridico (stepIes f3))) = some g := h1
      refine ⟨c0, f3, hc0, ?_, (Option.some_injective _ h2).symm⟩
      rw [← hf1]
      exact hs

theorem colAll_stepCorede_ne {f : Frame} {n : String} {c : List Val}
    (hne : n ≠ "COREDE") (hc : colAll f n c) : colAll (stepCorede f) n c := by
  unfold stepCorede
  by_cases h : (colNames f).contains "COREDE"
  · rw [if_pos h]
    exact colAll_setCol_ne hc hne.symm _
  · rw [if_neg h]
    cases coredeAliases f with
    | nil => exact colAll_setCol_ne hc hne.symm _
    | cons nm t => exact colAll_setCol_ne hc hne.symm _

theorem colAll_stepIes_ne {f : Frame} {n : String} {c : List Val}
    (hne : n ≠ "IES") (hc : colAll f n c) : colAll (stepIes f) n c := by
  unfold stepIes
  by_cases h : (colNames f).contains "IES"
  · rw [if_pos h]
    exact hc
  · rw [if_neg h]
    cases iesAliases f with
    | nil => exact colAll_setCol_ne hc hne.symm _
    | cons nm t => exact colAll_setCol_ne hc hne.symm _

theorem colAll_stepStatus_ne {f : Frame} {n : String} {c : List Val}
    (hne : n ≠ "Status Jurídico") (hc : colAll f n c) :
    colAll (stepStatusJuridico f) n c := by
  unfold stepStatusJuridico
  by_cases h : (colNames f).contains "Status Jurídico"
  · rw [if_pos h]
    exact hc
  · rw [if_neg h]
    cases statusAliases f with
    | nil => exact colAll_setCol_ne hc hne.symm _
    | cons nm t => exact colAll_setCol_ne hc hne.symm _

theorem colAll_stepFill_ne {f : Frame} {n : String} {c : List Val}
    (hne1 : n ≠ "IES") (hne2 : n ≠ "Status Jurídico") (hc : colAll f n c) :
    colAll (stepFill f) n c :=
  colAll_setCol_ne (colAll_setCol_ne hc hne1.symm _) hne2.symm _

theorem colAll_stepCount_ne {nm : String} {f f' : Frame} {n : String}
    {c : List Val} (h : stepCount nm f = some f') (hne : n ≠ nm)
    (hc : colAll f n c) : colAll f' n c := by
  rcases stepCount_some h with ⟨c0, c', _, _, hf'⟩
  rw [hf']
  exact colAll_setCol_ne hc hne.symm _

theorem mem_stepIes {f : Frame} {n : String} (h : n ∈ colNames f) :
    n ∈ colNames (stepIes f) := by
  unfold stepIes
  by_cases hi : (colNames f).contains "IES"
  · rw [if_pos hi]
    exact h
  · rw [if_neg hi]
    cases iesAliases f with
    | nil => exact mem_colNames_setCol_of_mem _ h
    | cons nm t => exact mem_colNames_setCol_of_mem _ h

theorem mem_stepStatus {f : Frame} {n : String} (h : n ∈ colNames f) :
    n ∈ colNames (stepStatusJuridico f) := by
  unfold stepStatusJuridico
  by_cases hi : (colNames f).contains "Status Jurídico"
  · rw [if_pos hi]
    exact h
  · rw [if_neg hi]
    cases statusAliases f with
    | nil => exact mem_colNames_setCol_of_mem _ h
    | cons nm t => exact mem_colNames_setCol_of_mem _ h

theorem ies_mem_stepIes (f : Frame) : "IES" ∈ colNames (stepIes f) := by
  unfold stepIes
  by_cases hi : (colNames f).contains "IES"
  · rw [if_pos hi]
    simpa [List.elem_iff] using hi
  · rw [if_neg hi]
    cases iesAliases f with
    | nil => exact (colAll_setCol_self f _ _).1
    | cons nm t => exact (colAll_setCol_self f _ _).1

theorem status_mem_stepStatus (f : Frame) :
    "Status Jurídico" ∈ colNames (stepStatusJuridico f) := by
  unfold stepStatusJuridico
  by_cases hi : (colNames f).contains "Status Jurídico"
  · rw [if_pos hi]
    simpa [List.elem_iff] using hi
  · rw [if_neg hi]
    cases statusAliases f with
    | nil => exact (colAll_setCol_self f _ _).1
    | cons nm t => exact (colAll_setCol_self f _ _).1

theorem renameName_preimage {m : List (String × String)} {n : String}
    (hT : ∀ q ∈ m, q.2 ≠ n) : ∀ s, renameName m s = n → s = n := by
  intro s hs
  rcases renameName_cases m s with h | ⟨q, hq, hsq, hrq⟩
  · rw [← h]
    exact hs
  · rw [hrq] at hs
    exact absurd hs (hT q hq)

theorem renameName_not_key (s : String) :
    ∀ p ∈ mapaColunas, renameName mapaColunas s ≠ p.1 := by
  intro p hp
  unfold renameName
  cases hfind : mapaColunas.find? (fun q => q.1 == s) with
  | none =>
    intro he
    have he2 : s = p.1 := he
    have h2 := List.find?_eq_none.mp hfind p hp
    rw [← he2] at h2
    simp at h2
  | some q =>
    have hq := List.mem_of_find?_eq_some hfind
    intro he
    have he2 : q.2 = p.1 := he
    exact absurd he2
      ((by decide : ∀ q ∈ mapaColunas, ∀ p ∈ mapaColunas, q.2 ≠ p.1) q hq p hp)

/-- No synonym key survives among the column labels after normalization
steps. -/
def NoKeys (f : Frame) : Prop := ∀ p ∈ mapaColunas, ¬ p.1 ∈ colNames f

theorem noKeys_setCol {f : Frame} {n : String} {c : List Val}
    (hP : NoKeys f) (hn : ∀ p ∈ mapaColunas, p.1 ≠ n) :
    NoKeys (setCol f n c) := by
  intro p hp hmem
  rcases mem_colNames_setCol hmem with h | h
  · exact hP p hp h
  · exact hn p hp h

theorem noKeys_rename (f : Frame) : NoKeys (renameCols mapaColunas f) := by
  intro p hp hmem
  rw [colNames_renameCols] at hmem
  rcases List.mem_map.mp hmem with ⟨s, _, hse⟩
  exact renameName_not_key s p hp hse

theorem noKeys_stepCorede {f : Frame} (hP : NoKeys f) :
    NoKeys (stepCorede f) := by
  unfold stepCorede
  by_cases h : (colNames f).contains "COREDE"
  · rw [if_pos h]
    exact noKeys_setCol hP (by decide)
  · rw [if_neg h]
    cases coredeAliases f with
    | nil => exact noKeys_setCol hP (by decide)
    | cons nm t => exact noKeys_setCol hP (by decide)

theorem noKeys_stepIes {f : Frame} (hP : NoKeys f) : NoKeys (stepIes f) := by
  unfold stepIes
  by_cases h : (colNames f).contains "IES"
  · rw [if_pos h]
    exact hP
  · rw [if_neg h]
    cases iesAliases f with
    | nil => exact noKeys_setCol hP (by decide)
    | cons nm t => exact noKeys_setCol hP (by decide)

theorem noKeys_stepStatus {f : Frame} (hP : NoKeys f) :
    NoKeys (stepStatusJuridico f) := by
  unfold stepStatusJuridico
  by_cases h : (colNames f).contains "Status Jurídico"
  · rw [if_pos h]
    exact hP
  · rw [if_neg h]
    cases statusAliases f with
    | nil => exact noKeys_setCol hP (by decide)
    | cons nm t => exact noKeys_setCol hP (by decide)

theorem noKeys_stepFill {f : Frame} (hP : NoKeys f) : NoKeys (stepFill f) :=
  noKeys_setCol (noKeys_setCol hP (by decide)) (by decide)

theorem noKeys_stepCount {nm : String} {f f' : Frame}
    (h : stepCount nm f = some f') (hn : ∀ p ∈ mapaColunas, p.1 ≠ nm)
    (hP : NoKeys f) : NoKeys f' := by
  rcases stepCount_some h with ⟨c, c', _, _, hf'⟩
  rw [hf']
  exact noKeys_setCol hP hn

theorem stepCorede_colAll (f : Frame) :
    ∃ c, colAll (stepCorede f) "COREDE" c ∧ ∀ v ∈ c, ∃ s, v = Val.str s := by
  unfold stepCorede
  by_cases h : (colNames f).contains "COREDE"
  · rw [if_pos h]
    refine ⟨_, colAll_setCol_self _ _ _, ?_⟩
    intro v hv
    rcases List.mem_map.mp hv with ⟨w, _, hwe⟩
    exact hwe ▸ valToStr_isStr w
  · rw [if_neg h]
    cases coredeAliases f with
    | nil =>
      refine ⟨_, colAll_setCol_self _ _ _, ?_⟩
      intro v hv
      exact ⟨"NA", List.eq_of_mem_replicate hv⟩
    | cons nm t =>
      refine ⟨_, colAll_setCol_self _ _ _, ?_⟩
      intro v hv
      rcases List.mem_map.mp hv with ⟨w, _, hwe⟩
      exact hwe ▸ valToStr_isStr w

/-- Shape invariant of every successful normalization output. -/
theorem carregar_normalOut {f g : Frame} (h : carregar_dados f = some g) :
    NormalOut g := by
  rcases carregar_some h with ⟨c0, f3, hc0, hcounts, hgdef⟩
  rcases stepCounts_some hcounts with ⟨fa, fb, fc, ha, hb, hc, hd⟩
  rcases stepCount_some ha with ⟨ca0, ca', hgca, hicA, hfa⟩
  rcases stepCount_some hb with ⟨cb0, cb', hgcb, hicB, hfb⟩
  rcases stepCount_some hc with ⟨cc0, cc', hgcc, hicC, hfc⟩
  rcases stepCount_some hd with ⟨cd0, cd', hgcd, hicD, hfd⟩
  have hchainAll : ∀ {n : String} {c : List Val}, colAll
      (stepCorede (renameCols mapaColunas (setCol f "Ano" (c0.map toNumericVal))))
      n c →
      n ≠ "Doutorado - Matriculado" →
      n ≠ "Doutorado Profissional - Matriculado" →
      n ≠ "Mestrado - Matriculado" →
      n ≠ "Mestrado Profissional - Matriculado" →
      n ≠ "IES" → n ≠ "Status Jurídico" → colAll g n c := by
    intro n c hcol h1 h2 h3 h4 h5 h6
    rw [hgdef]
    exact colAll_stepFill_ne h5 h6
      (colAll_stepStatus_ne h6 (colAll_stepIes_ne h5
        (colAll_stepCount_ne hd h4 (colAll_stepCount_ne hc h3
          (colAll_stepCount_ne hb h2 (colAll_stepCount_ne ha h1 hcol))))))
  have hcolf3 : ∀ {n : String} {c : List Val}, colAll f3 n c →
      n ≠ "IES" → n ≠ "Status Jurídico" → colAll g n c := by
    intro n c hcol h5 h6
    rw [hgdef]
    exact colAll_stepFill_ne h5 h6
      (colAll_stepStatus_ne h6 (colAll_stepIes_ne h5 hcol))
  refine ⟨?_, ?_, ?_, ?_, ?_, ?_⟩
  · refine ⟨c0.map toNumericVal, ?_, ?_⟩
    · apply hchainAll _ (by decide) (by decide) (by decide) (by decide)
        (by decide) (by decide)
      exact colAll_stepCorede_ne (by decide)
        (colAll_renameCols (colAll_setCol_self f "Ano" _) (by decide)
          (renameName_preimage (by decide)))
    · intro v hv
      rcases List.mem_map.mp hv with ⟨w, _, hwe⟩
      rw [← hwe]
      exact toNumericVal_idem w
  · have hK : NoKeys f3 := by
      have hK2 := noKeys_stepCorede
        (noKeys_rename (setCol f "Ano" (c0.map toNumericVal)))
      exact noKeys_stepCount hd (by decide) (noKeys_stepCount hc (by decide)
        (noKeys_stepCount hb (by decide) (noKeys_stepCount ha (by decide) hK2)))
    rw [hgdef]
    exact noKeys_stepFill (noKeys_stepStatus (noKeys_stepIes hK))
  · rcases stepCorede_colAll
      (renameCols mapaColunas (setCol f "Ano" (c0.map toNumericVal))) with
      ⟨c2, hc2, hstr⟩
    exact ⟨c2, hchainAll hc2 (by decide) (by decide) (by decide) (by decide)
      (by decide) (by decide), hstr⟩
  · intro nm hnm
    simp only [colunasMatriculados, List.mem_cons, List.not_mem_nil,
      or_false] at hnm
    rcases hnm with rfl | rfl | rfl | rfl
    · refine ⟨ca', ?_, astypeIntCol_shape hicA⟩
      apply hcolf3 _ (by decide) (by decide)
      have h0 : colAll fa "Doutorado - Matriculado" ca' :=
        hfa ▸ colAll_setCol_self _ _ _
      exact colAll_stepCount_ne hd (by decide) (colAll_stepCount_ne hc
        (by decide) (colAll_stepCount_ne hb (by decide) h0))
    · refine ⟨cb', ?_, astypeIntCol_shape hicB⟩
      apply hcolf3 _ (by decide) (by decide)
      have h0 : colAll fb "Doutorado Profissional - Matriculado" cb' :=
        hfb ▸ colAll_setCol_self _ _ _
      exact colAll_stepCount_ne hd (by decide)
        (colAll_stepCount_ne hc (by decide) h0)
    · refine ⟨cc', ?_, astypeIntCol_shape hicC⟩
      apply hcolf3 _ (by decide) (by decide)
      have h0 : colAll fc "Mestrado - Matriculado" cc' :=
        hfc ▸ colAll_setCol_self _ _ _
      exact colAll_stepCount_ne hd (by decide) h0
    · refine ⟨cd', ?_, astypeIntCol_shape hicD⟩
      apply hcolf3 _ (by decide) (by decide)
      exact hfd ▸ colAll_setCol_self _ _ _
  · have hIesMem : "IES" ∈
        colNames (stepStatusJuridico (stepIes f3)) :=
      mem_stepStatus (ies_mem_stepIes f3)
    rcases getCol_isSome_of_mem hIesMem with ⟨ci, hci⟩
    refine ⟨ci.map (fillnaVal (Val.str "Não informado")), ?_, ?_⟩
    · rw [hgdef]
      unfold stepFill
      rw [hci]
      apply colAll_setCol_ne _ (by decide)
      exact colAll_setCol_self _ _ _
    · intro v hv
      rcases List.mem_map.mp hv with ⟨w, _, hwe⟩
      rw [← hwe]
      exact fillnaVal_ne_null w (fun hx => Val.noConfusion hx)
  · have hStMem : "Status Jurídico" ∈
        colNames (stepStatusJuridico (stepIes f3)) :=
      status_mem_stepStatus (stepIes f3)
    have hStMem2 : "Status Jurídico" ∈ colNames
        (setCol (stepStatusJuridico (stepIes f3)) "IES"
          (((getCol (stepStatusJuridico (stepIes f3)) "IES").getD []).map
            (fillnaVal (Val.str "Não informado")))) :=
      mem_colNames_setCol_of_mem _ hStMem
    rcases getCol_isSome_of_mem hStMem2 with ⟨cs, hcs⟩
    have hX : stepFill (stepStatusJuridico (stepIes f3)) =
        setCol (setCol (stepStatusJuridico (stepIes f3)) "IES"
          (((getCol (stepStatusJuridico (stepIes f3)) "IES").getD []).map
            (fillnaVal (Val.str "Não informado")))) "Status Jurídico"
          (((getCol (setCol (stepStatusJuridico (stepIes f3)) "IES"
            (((getCol (stepStatusJuridico (stepIes f3)) "IES").getD []).map
              (fillnaVal (Val.str "Não informado")))) "Status Jurídico").getD
                []).map (fillnaVal (Val.str "Não informado"))) := rfl
    refine ⟨cs.map (fillnaVal (Val.str "Não informado")), ?_, ?_⟩
    · rw [hgdef, hX, hcs]
      exact colAll_setCol_self _ _ _
    · intro v hv
      rcases List.mem_map.mp hv with ⟨w, _, hwe⟩
      rw [← hwe]
      exact fillnaVal_ne_null w (fun hx => Val.noConfusion hx)

/-- A frame with the normalized shape is a fixed point of the whole
pipeline. -/
theorem normalOut_fixed {g : Frame} (hN : NormalOut g) :
    carregar_dados g = some g := by
  obtain ⟨⟨cA, hcA, hfixA⟩, hK, ⟨cC, hcC, hstrC⟩, hCnt, ⟨cI, hcI, hnnI⟩,
    ⟨cS, hcS, hnnS⟩⟩ := hN
  have hAno : stepAno g = some g := by
    unfold stepAno
    rw [getCol_of_colAll hcA]
    have hmap : cA.map toNumericVal = cA :=
      (List.map_congr_left hfixA).trans (List.map_id _)
    show some (setCol g "Ano" (cA.map toNumericVal)) = some g
    rw [hmap, setCol_eq_self hcA]
  have hRen : renameCols mapaColunas g = g := renameCols_eq_self hK
  have hCor : stepCorede g = g := by
    unfold stepCorede
    rw [if_pos (by simpa [List.elem_iff] using hcC.1), getCol_of_colAll hcC]
    have hmapC : (cC.map (fillnaVal (Val.str "NA"))).map valToStr = cC := by
      rw [List.map_map]
      apply (List.map_congr_left ?_).trans (List.map_id _)
      intro v hv
      rcases hstrC v hv with ⟨s, rfl⟩
      rfl
    show setCol g "COREDE" ((cC.map (fillnaVal (Val.str "NA"))).map valToStr) = g
    rw [hmapC, setCol_eq_self hcC]
  have hCount : ∀ nm ∈ colunasMatriculados, stepCount nm g = some g := by
    intro nm hnm
    rcases hCnt nm hnm with ⟨c, hcall, hshape⟩
    unfold stepCount
    rw [getCol_of_colAll hcall]
    show (match astypeIntCol c with
      | none => none
      | some c' => some (setCol g nm c')) = some g
    rw [astypeIntCol_int_fixed hshape]
    show some (setCol g nm c) = some g
    rw [setCol_eq_self hcall]
  have hCounts : stepCounts g = some g := by
    unfold stepCounts
    rw [hCount "Doutorado - Matriculado" (by decide)]
    show stepCount "Doutorado Profissional - Matriculado" g >>=
      stepCount "Mestrado - Matriculado" >>=
      stepCount "Mestrado Profissional - Matriculado" = some g
    rw [hCount "Doutorado Profissional - Matriculado" (by decide)]
    show stepCount "Mestrado - Matriculado" g >>=
      stepCount "Mestrado Profissional - Matriculado" = some g
    rw [hCount "Mestrado - Matriculado" (by decide)]
    show stepCount "Mestrado Profissional - Matriculado" g = some g
    exact hCount "Mestrado Profissional - Matriculado" (by decide)
  have hIes : stepIes g = g := by
    unfold stepIes
    rw [if_pos (by simpa [List.elem_iff] using hcI.1)]
  have hSta : stepStatusJuridico g = g := by
    unfold stepStatusJuridico
    rw [if_pos (by simpa [List.elem_iff] using hcS.1)]
  have hFill : stepFill g = g := by
    have hF1 : stepFill g = setCol (setCol g "IES"
        (((getCol g "IES").getD []).map (fillnaVal (Val.str "Não informado"))))
        "Status Jurídico"
        (((getCol (setCol g "IES" (((getCol g "IES").getD []).map
          (fillnaVal (Val.str "Não informado")))) "Status Jurídico").getD
            []).map (fillnaVal (Val.str "Não informado"))) := rfl
    have hmapI : cI.map (fillnaVal (Val.str "Não informado")) = cI :=
      (List.map_congr_left
        (fun v hv => fillnaVal_of_ne_null _ (hnnI v hv))).trans
        (List.map_id _)
    have hmapS : cS.map (fillnaVal (Val.str "Não informado")) = cS :=
      (List.map_congr_left
        (fun v hv => fillnaVal_of_ne_null _ (hnnS v hv))).trans
        (List.map_id _)
    rw [hF1, getCol_of_colAll hcI, Option.getD_some, hmapI,
      setCol_eq_self hcI, getCol_of_colAll hcS, Option.getD_some, hmapS,
      setCol_eq_self hcS]
  unfold carregar_dados
  rw [hAno]
  show (stepCounts (stepCorede (renameCols mapaColunas g)) >>=
    fun f3 => some (stepFill (stepStatusJuridico (stepIes f3)))) = some g
  rw [hRen, hCor, hCounts]
  show some (stepFill (stepStatusJuridico (stepIes g))) = some g
  rw [hIes, hSta, hFill]

/-- C9: normalization is idempotent: feeding the output of
`carregar_dados` back through the pipeline reproduces it unchanged (in the
`Option` composition that models the raising pipeline). -/
theorem C9_normalize_idempotent (f : Frame) :
    (carregar_dados f).bind carregar_dados = carregar_dados f := by
  cases h : carregar_dados f with
  | none => rfl
  | some g =>
    show carregar_dados g = some g
    exact normalOut_fixed (carregar_normalOut h)

theorem getCol_stepCorede_ne {f : Frame} {n : String} (hne : n ≠ "COREDE") :
    getCol (stepCorede f) n = getCol f n := by
  unfold stepCorede
  by_cases h : (colNames f).contains "COREDE"
  · rw [if_pos h]
    exact getCol_setCol_ne f _ hne
  · rw [if_neg h]
    cases coredeAliases f with
    | nil => exact getCol_setCol_ne f _ hne
    | cons nm t => exact getCol_setCol_ne f _ hne

theorem carregar_counts_cols {f g : Frame} (h : carregar_dados f = some g) :
    ∀ nm ∈ colunasMatriculados, ∃ c c', getCol f nm = some c ∧
      astypeIntCol c = some c' ∧ colAll g nm c' := by
  rcases carregar_some h with ⟨c0, f3, hc0, hcounts, hgdef⟩
  rcases stepCounts_some hcounts with ⟨fa, fb, fc, ha, hb, hc, hd⟩
  rcases stepCount_some ha with ⟨ca0, ca', hgca, hicA, hfa⟩
  rcases stepCount_some hb with ⟨cb0, cb', hgcb, hicB, hfb⟩
  rcases stepCount_some hc with ⟨cc0, cc', hgcc, hicC, hfc⟩
  rcases stepCount_some hd with ⟨cd0, cd', hgcd, hicD, hfd⟩
  have hgf2 : ∀ nm ∈ colunasMatriculados,
      getCol (stepCorede (renameCols mapaColunas
        (setCol f "Ano" (c0.map toNumericVal)))) nm = getCol f nm := by
    intro nm hnm
    rw [getCol_stepCorede_ne
      ((by decide : ∀ nm ∈ colunasMatriculados, nm ≠ "COREDE") nm hnm)]
    rw [getCol_renameCols _
      ((by decide : ∀ nm ∈ colunasMatriculados,
        renameName mapaColunas nm = nm) nm hnm)
      (renameName_preimage
        ((by decide : ∀ nm ∈ colunasMatriculados,
          ∀ q ∈ mapaColunas, q.2 ≠ nm) nm hnm))]
    exact getCol_setCol_ne f _
      ((by decide : ∀ nm ∈ colunasMatriculados, nm ≠ "Ano") nm hnm)
  have hcolg : ∀ {n : String} {c : List Val}, colAll f3 n c →
      n ≠ "IES" → n ≠ "Status Jurídico" → colAll g n c := by
    intro n c hcol h5 h6
    rw [hgdef]
    exact colAll_stepFill_ne h5 h6
      (colAll_stepStatus_ne h6 (colAll_stepIes_ne h5 hcol))
  intro nm hnm
  have hmem4 := hnm
  simp only [colunasMatriculados, List.mem_cons, List.not_mem_nil,
    or_false] at hmem4
  rcases hmem4 with rfl | rfl | rfl | rfl
  · refine ⟨ca0, ca', by rw [← hgf2 _ hnm]; exact hgca, hicA, ?_⟩
    apply hcolg _ (by decide) (by decide)
    exact colAll_stepCount_ne hd (by decide) (colAll_stepCount_ne hc
      (by decide) (colAll_stepCount_ne hb (by decide)
        (hfa ▸ colAll_setCol_self _ _ _)))
  · have hb0 : getCol fa "Doutorado Profissional - Matriculado" =
        getCol f "Doutorado Profissional - Matriculado" := by
      rw [hfa, getCol_setCol_ne _ _ (by decide)]
      exact hgf2 _ hnm
    refine ⟨cb0, cb', by rw [← hb0]; exact hgcb, hicB, ?_⟩
    apply hcolg _ (by decide) (by decide)
    exact colAll_stepCount_ne hd (by decide) (colAll_stepCount_ne hc
      (by decide) (hfb ▸ colAll_setCol_self _ _ _))
  · have hc0' : getCol fb "Mestrado - Matriculado" =
        getCol f "Mestrado - Matriculado" := by
      rw [hfb, getCol_setCol_ne _ _ (by decide), hfa,
        getCol_setCol_ne _ _ (by decide)]
      exact hgf2 _ hnm
    refine ⟨cc0, cc', by rw [← hc0']; exact hgcc, hicC, ?_⟩
    apply hcolg _ (by decide) (by decide)
    exact colAll_stepCount_ne hd (by decide)
      (hfc ▸ colAll_setCol_self _ _ _)
  · have hd0 : getCol fc "Mestrado Profissional - Matriculado" =
        getCol f "Mestrado Profissional - Matriculado" := by
      rw [hfc, getCol_setCol_ne _ _ (by decide), hfb,
        getCol_setCol_ne _ _ (by decide), hfa,
        getCol_setCol_ne _ _ (by decide)]
      exact hgf2 _ hnm
    refine ⟨cd0, cd', by rw [← hd0]; exact hgcd, hicD, ?_⟩
    apply hcolg _ (by decide) (by decide)
    exact hfd ▸ colAll_setCol_self _ _ _

/-- C3 (amended): after a successful normalization, each of the four
enrollment-count columns exists in the output with integer values; a null
source cell became `0`, and a cell is non-negative whenever its source cell
was not a negative number (the code never clamps, so negative source
numbers survive). -/
theorem C3_counts_int_null_zero (f g : Frame)
    (h : carregar_dados f = some g) :
    ∀ nm ∈ colunasMatriculados, ∃ c c', getCol f nm = some c ∧
      getCol g nm = some c' ∧ List.Forall₂ intNonnegOf c c' := by
  intro nm hnm
  rcases carregar_counts_cols h nm hnm with ⟨c, c', h1, h2, h3⟩
  exact ⟨c, c', h1, getCol_of_colAll h3, astypeIntCol_forall₂ h2⟩

/-- C3 counterexample: a negative source count passes through
`fillna(0).astype(int)` unchanged, so the normalized doctoral count column
holds `-1`, refuting the unconditional non-negativity claim. -/
theorem C3_counterexample :
    carregar_dados frameNegCount = some
      { n := 1,
        cols := [("Ano", [.num 2020]),
                 ("Doutorado - Matriculado", [.num (-1)]),
                 ("Doutorado Profissional - Matriculado", [.num 0]),
                 ("Mestrado - Matriculado", [.num 0]),
                 ("Mestrado Profissional - Matriculado", [.num 0]),
                 ("COREDE", [.str "NA"]),
                 ("IES", [.str "Não informado"]),
                 ("Status Jurídico", [.str "Não informado"])] } ∧
    getCol
      { n := 1,
        cols := [("Ano", [.num 2020]),
                 ("Doutorado - Matriculado", [.num (-1)]),
                 ("Doutorado Profissional - Matriculado", [.num 0]),
                 ("Mestrado - Matriculado", [.num 0]),
                 ("Mestrado Profissional - Matriculado", [.num 0]),
                 ("COREDE", [.str "NA"]),
                 ("IES", [.str "Não informado"]),
                 ("Status Jurídico", [.str "Não informado"])] }
      "Doutorado - Matriculado" = some [Val.num (-1)] ∧
    ((-1 : ℚ) < 0) :=
  ⟨by decide, by decide, by norm_num⟩

/-- Witness for `C3_counts_int_null_zero` on a frame whose count cells are
all the number 1. -/
theorem C3_witness :
    carregar_dados frameAliasCorede = some
      { n := 1,
        cols := [("Ano", [.num 2020]),
                 ("COREDE_NOME", [.null]),
                 ("Doutorado - Matriculado", [.num 1]),
                 ("Doutorado Profissional - Matriculado", [.num 1]),
                 ("Mestrado - Matriculado", [.num 1]),
                 ("Mestrado Profissional - Matriculado", [.num 1]),
                 ("COREDE", [.str "nan"]),
                 ("IES", [.str "Não informado"]),
                 ("Status Jurídico", [.str "Não informado"])] } ∧
    "Doutorado - Matriculado" ∈ colunasMatriculados ∧
    (∃ c c', getCol frameAliasCorede "Doutorado - Matriculado" = some c ∧
      getCol
        { n := 1,
          cols := [("Ano", [.num 2020]),
                   ("COREDE_NOME", [.null]),
                   ("Doutorado - Matriculado", [.num 1]),
                   ("Doutorado Profissional - Matriculado", [.num 1]),
                   ("Mestrado - Matriculado", [.num 1]),
                   ("Mestrado Profissional - Matriculado", [.num 1]),
                   ("COREDE", [.str "nan"]),
                   ("IES", [.str "Não informado"]),
                   ("Status Jurídico", [.str "Não informado"])] }
        "Doutorado - Matriculado" = some c' ∧
      List.Forall₂ intNonnegOf c c') :=
  ⟨by decide, by decide,
    C3_counts_int_null_zero frameAliasCorede _ (by decide) _ (by decide)⟩

theorem getCol_stepIes_ne {f : Frame} {n : String} (hne : n ≠ "IES") :
    getCol (stepIes f) n = getCol f n := by
  unfold stepIes
  by_cases h : (colNames f).contains "IES"
  · rw [if_pos h]
  · rw [if_neg h]
    cases iesAliases f with
    | nil => exact getCol_setCol_ne f _ hne
    | cons nm t => exact getCol_setCol_ne f _ hne

theorem getCol_stepStatus_ne {f : Frame} {n : String}
    (hne : n ≠ "Status Jurídico") :
    getCol (stepStatusJuridico f) n = getCol f n := by
  unfold stepStatusJuridico
  by_cases h : (colNames f).contains "Status Jurídico"
  · rw [if_pos h]
  · rw [if_neg h]
    cases statusAliases f with
    | nil => exact getCol_setCol_ne f _ hne
    | cons nm t => exact getCol_setCol_ne f _ hne

theorem stepIes_of_mem {f : Frame} (h : "IES" ∈ colNames f) :
    stepIes f = f := by
  unfold stepIes
  rw [if_pos (by simpa [List.elem_iff] using h)]

theorem stepStatus_of_mem {f : Frame} (h : "Status Jurídico" ∈ colNames f) :
    stepStatusJuridico f = f := by
  unfold stepStatusJuridico
  rw [if_pos (by simpa [List.elem_iff] using h)]

theorem n_renameCols (m : List (String × String)) (f : Frame) :
    (renameCols m f).n = f.n := rfl

theorem n_stepCorede (f : Frame) : (stepCorede f).n = f.n := by
  unfold stepCorede
  by_cases h : (colNames f).contains "COREDE"
  · rw [if_pos h]
    exact n_setCol _ _ _
  · rw [if_neg h]
    cases coredeAliases f with
    | nil => exact n_setCol _ _ _
    | cons nm t => exact n_setCol _ _ _

theorem n_stepCount {nm : String} {f f' : Frame}
    (h : stepCount nm f = some f') : f'.n = f.n := by
  rcases stepCount_some h with ⟨c, c', _, _, hf'⟩
  rw [hf']
  exact n_setCol _ _ _

theorem n_stepIes_eq {f : Frame} (h : "IES" ∈ colNames f) :
    (stepIes f).n = f.n := by rw [stepIes_of_mem h]

theorem forall₂_map_self {α β : Type} {R : α → β → Prop} {l : List α}
    {h : α → β} (hp : ∀ v ∈ l, R v (h v)) : List.Forall₂ R l (l.map h) := by
  induction l with
  | nil => exact List.Forall₂.nil
  | cons a t ih =>
    exact List.Forall₂.cons (hp a (List.mem_cons_self a t))
      (ih (fun v hv => hp v (List.mem_cons_of_mem _ hv)))

theorem filter_map_rename {P : String → Bool}
    (hKey : ∀ q ∈ mapaColunas, P q.1 = false)
    (hTar : ∀ q ∈ mapaColunas, P q.2 = false) (l : List String) :
    (l.map (renameName mapaColunas)).filter P = l.filter P := by
  induction l with
  | nil => rfl
  | cons s t ih =>
    rw [List.map_cons, List.filter_cons, List.filter_cons]
    rcases renameName_cases mapaColunas s with hfix | ⟨q, hq, hsq, hrq⟩
    · rw [hfix]
      cases hP : P s
      · simpa using ih
      · simpa [hP] using ih
    · rw [hrq, hTar q hq, hsq, hKey q hq]
      exact ih

theorem filter_append_false {P : String → Bool} {x : String}
    (hx : P x = false) (l : List String) :
    (l ++ [x]).filter P = l.filter P := by
  rw [List.filter_append]
  simp [List.filter_cons, hx]

theorem mem_map_rename_iff {n : String} {l : List String}
    (h1 : renameName mapaColunas n = n)
    (h2 : ∀ s, renameName mapaColunas s = n → s = n) :
    n ∈ l.map (renameName mapaColunas) ↔ n ∈ l := by
  constructor
  · intro hm
    rcases List.mem_map.mp hm with ⟨s, hs, hse⟩
    rw [← h2 s hse]
    exact hs
  · intro hm
    exact List.mem_map.mpr ⟨n, hm, h1⟩

theorem stepCorede_colNames (f : Frame) :
    colNames (stepCorede f) = colNames f ∨
      (¬ "COREDE" ∈ colNames f ∧
        colNames (stepCorede f) = colNames f ++ ["COREDE"]) := by
  unfold stepCorede
  by_cases h : (colNames f).contains "COREDE"
  · rw [if_pos h]
    exact Or.inl (colNames_setCol_of_mem _ (by simpa [List.elem_iff] using h))
  · have hmem : ¬ "COREDE" ∈ colNames f := by
      simpa [List.elem_iff] using h
    rw [if_neg h]
    cases coredeAliases f with
    | nil => exact Or.inr ⟨hmem, colNames_setCol_of_not_mem _ hmem⟩
    | cons nm t => exact Or.inr ⟨hmem, colNames_setCol_of_not_mem _ hmem⟩

theorem stepIes_colNames (f : Frame) :
    colNames (stepIes f) = colNames f ∨
      (¬ "IES" ∈ colNames f ∧
        colNames (stepIes f) = colNames f ++ ["IES"]) := by
  unfold stepIes
  by_cases h : (colNames f).contains "IES"
  · rw [if_pos h]
    exact Or.inl rfl
  · have hmem : ¬ "IES" ∈ colNames f := by
      simpa [List.elem_iff] using h
    rw [if_neg h]
    cases iesAliases f with
    | nil => exact Or.inr ⟨hmem, colNames_setCol_of_not_mem _ hmem⟩
    | cons nm t => exact Or.inr ⟨hmem, colNames_setCol_of_not_mem _ hmem⟩

theorem n_stepIes (f : Frame) : (stepIes f).n = f.n := by
  unfold stepIes
  by_cases h : (colNames f).contains "IES"
  · rw [if_pos h]
  · rw [if_neg h]
    cases iesAliases f with
    | nil => exact n_setCol _ _ _
    | cons nm t => exact n_setCol _ _ _

theorem carregar_corede_cases {f g : Frame} (h : carregar_dados f = some g) :
    ∃ cc, getCol g "COREDE" = some cc ∧ (∀ v ∈ cc, ∃ s, v = Val.str s) ∧
      ("COREDE" ∈ colNames f →
        ∃ c, getCol f "COREDE" = some c ∧
          List.Forall₂ (fun v w => (v = Val.null → w = Val.str "NA") ∧
            (∀ s, v = Val.str s → w = Val.str s)) c cc) ∧
      (¬ "COREDE" ∈ colNames f → coredeAliases f = [] →
        cc = List.replicate f.n (Val.str "NA")) ∧
      (∀ nm t, coredeAliases f = nm :: t → ¬ "COREDE" ∈ colNames f →
        ∃ ac, getCol f nm = some ac ∧
          List.Forall₂ (fun v w => (v = Val.null → w = Val.str "nan") ∧
            (∀ s, v = Val.str s → w = Val.str s)) ac cc) := by
  rcases carregar_some h with ⟨c0, f3, hc0, hcounts, hgdef⟩
  rcases stepCounts_some hcounts with ⟨fa, fb, fc, ha, hb, hc, hd⟩
  rcases stepCount_some ha with ⟨ca0, ca', hgca, hicA, hfa⟩
  rcases stepCount_some hb with ⟨cb0, cb', hgcb, hicB, hfb⟩
  rcases stepCount_some hc with ⟨cc0, cc', hgcc, hicC, hfc⟩
  rcases stepCount_some hd with ⟨cd0, cd', hgcd, hicD, hfd⟩
  have hAnoMem : "Ano" ∈ colNames f := mem_colNames_of_getCol hc0
  have hnames2 : colNames (renameCols mapaColunas
      (setCol f "Ano" (c0.map toNumericVal))) =
      (colNames f).map (renameName mapaColunas) := by
    rw [colNames_renameCols, colNames_setCol_of_mem _ hAnoMem]
  have hn2 : (renameCols mapaColunas
      (setCol f "Ano" (c0.map toNumericVal))).n = f.n :=
    (n_renameCols _ _).trans (n_setCol _ _ _)
  have hgf2C : getCol (renameCols mapaColunas
      (setCol f "Ano" (c0.map toNumericVal))) "COREDE" =
      getCol f "COREDE" := by
    rw [getCol_renameCols _ (by decide) (renameName_preimage (by decide)),
      getCol_setCol_ne f _ (by decide)]
  have hmemf2C : "COREDE" ∈ colNames (renameCols mapaColunas
      (setCol f "Ano" (c0.map toNumericVal))) ↔ "COREDE" ∈ colNames f := by
    rw [hnames2]
    exact mem_map_rename_iff (by decide) (renameName_preimage (by decide))
  have haliasf2 : coredeAliases (renameCols mapaColunas
      (setCol f "Ano" (c0.map toNumericVal))) = coredeAliases f := by
    unfold coredeAliases
    rw [hnames2]
    exact filter_map_rename (by decide) (by decide) _
  have hg3 : getCol f3 "COREDE" = getCol (stepCorede (renameCols mapaColunas
      (setCol f "Ano" (c0.map toNumericVal)))) "COREDE" := by
    rw [hfd, getCol_setCol_ne _ _ (by decide), hfc,
      getCol_setCol_ne _ _ (by decide), hfb, getCol_setCol_ne _ _ (by decide),
      hfa, getCol_setCol_ne _ _ (by decide)]
  have hgg : getCol g "COREDE" = getCol (stepCorede (renameCols mapaColunas
      (setCol f "Ano" (c0.map toNumericVal)))) "COREDE" := by
    have hXg : g = setCol (setCol (stepStatusJuridico (stepIes f3)) "IES"
        (((getCol (stepStatusJuridico (stepIes f3)) "IES").getD []).map
          (fillnaVal (Val.str "Não informado")))) "Status Jurídico"
        (((getCol (setCol (stepStatusJuridico (stepIes f3)) "IES"
          (((getCol (stepStatusJuridico (stepIes f3)) "IES").getD []).map
            (fillnaVal (Val.str "Não informado")))) "Status Jurídico").getD
              []).map (fillnaVal (Val.str "Não informado"))) := hgdef
    rw [hXg, getCol_setCol_ne _ _ (by decide), getCol_setCol_ne _ _ (by decide),
      getCol_stepStatus_ne (by decide), getCol_stepIes_ne (by decide), hg3]
  by_cases hmem : "COREDE" ∈ colNames (renameCols mapaColunas
      (setCol f "Ano" (c0.map toNumericVal)))
  · rcases getCol_isSome_of_mem hmem with ⟨cF, hcF⟩
    have hf2c : stepCorede (renameCols mapaColunas
        (setCol f "Ano" (c0.map toNumericVal))) =
        setCol (renameCols mapaColunas (setCol f "Ano" (c0.map toNumericVal)))
          "COREDE" ((cF.map (fillnaVal (Val.str "NA"))).map valToStr) := by
      unfold stepCorede
      rw [if_pos (by simpa [List.elem_iff] using hmem), hcF]
      rfl
    refine ⟨(cF.map (fillnaVal (Val.str "NA"))).map valToStr, ?_, ?_, ?_, ?_, ?_⟩
    · rw [hgg, hf2c, getCol_setCol_self]
    · intro v hv
      rcases List.mem_map.mp hv with ⟨w, _, hwe⟩
      exact hwe ▸ valToStr_isStr w
    · intro _
      refine ⟨cF, by rw [← hgf2C]; exact hcF, ?_⟩
      rw [List.map_map]
      apply forall₂_map_self
      intro v _
      constructor
      · intro hv
        rw [hv]
        rfl
      · intro s hv
        rw [hv]
        rfl
    · intro hnm _
      exact absurd (hmemf2C.mp hmem) hnm
    · intro nm t _ hnm
      exact absurd (hmemf2C.mp hmem) hnm
  · have hnmemf : ¬ "COREDE" ∈ colNames f := fun hf => hmem (hmemf2C.mpr hf)
    have hcont : ¬ ((colNames (renameCols mapaColunas
        (setCol f "Ano" (c0.map toNumericVal)))).contains "COREDE" = true) := by
      simpa [List.elem_iff] using hmem
    cases halias : coredeAliases (renameCols mapaColunas
        (setCol f "Ano" (c0.map toNumericVal))) with
    | nil =>
      have hf2c : stepCorede (renameCols mapaColunas
          (setCol f "Ano" (c0.map toNumericVal))) =
          setCol (renameCols mapaColunas (setCol f "Ano" (c0.map toNumericVal)))
            "COREDE" (List.replicate (renameCols mapaColunas
              (setCol f "Ano" (c0.map toNumericVal))).n (Val.str "NA")) := by
        unfold stepCorede
        rw [if_neg hcont, halias]
      refine ⟨List.replicate f.n (Val.str "NA"), ?_, ?_, ?_, ?_, ?_⟩
      · rw [hgg, hf2c, hn2, getCol_setCol_self]
      · intro v hv
        exact ⟨"NA", List.eq_of_mem_replicate hv⟩
      · intro hf
        exact absurd hf hnmemf
      · intro _ _
        rfl
      · intro nm t hl _
        rw [← haliasf2, halias] at hl
        cases hl
    | cons nm t =>
      have hmemAl : nm ∈ coredeAliases (renameCols mapaColunas
          (setCol f "Ano" (c0.map toNumericVal))) := by
        rw [halias]
        exact List.mem_cons_self nm t
      unfold coredeAliases at hmemAl
      have hnmMem : nm ∈ colNames (renameCols mapaColunas
          (setCol f "Ano" (c0.map toNumericVal))) :=
        List.mem_of_mem_filter hmemAl
      have hpred : containsSubstr nm "COREDE" = true := by
        have h0 := List.of_mem_filter hmemAl
        simpa using h0
      have hnmKey : ∀ q ∈ mapaColunas, q.1 ≠ nm := by
        intro q hq he
        have h1 := (by decide : ∀ q ∈ mapaColunas,
          containsSubstr q.1 "COREDE" = false) q hq
        rw [he, hpred] at h1
        cases h1
      have hnmTar : ∀ q ∈ mapaColunas, q.2 ≠ nm := by
        intro q hq he
        have h1 := (by decide : ∀ q ∈ mapaColunas,
          containsSubstr q.2 "COREDE" = false) q hq
        rw [he, hpred] at h1
        cases h1
      have hnmAno : nm ≠ "Ano" := by
        intro he
        have h1 : containsSubstr "Ano" "COREDE" = false := by decide
        rw [← he, hpred] at h1
        cases h1
      have hgf2nm : getCol (renameCols mapaColunas
          (setCol f "Ano" (c0.map toNumericVal))) nm = getCol f nm := by
        rw [getCol_renameCols _ (renameName_eq_of_no_key hnmKey)
          (renameName_preimage hnmTar), getCol_setCol_ne f _ hnmAno]
      rcases getCol_isSome_of_mem hnmMem with ⟨ac, hac⟩
      have hf2c : stepCorede (renameCols mapaColunas
          (setCol f "Ano" (c0.map toNumericVal))) =
          setCol (renameCols mapaColunas (setCol f "Ano" (c0.map toNumericVal)))
            "COREDE" (ac.map valToStr) := by
        unfold stepCorede
        rw [if_neg hcont, halias]
        show setCol (renameCols mapaColunas (setCol f "Ano"
            (c0.map toNumericVal))) "COREDE"
            (((getCol (renameCols mapaColunas (setCol f "Ano"
              (c0.map toNumericVal))) nm).getD []).map valToStr) = _
        rw [hac]
        rfl
      refine ⟨ac.map valToStr, ?_, ?_, ?_, ?_, ?_⟩
      · rw [hgg, hf2c, getCol_setCol_self]
      · intro v hv
        rcases List.mem_map.mp hv with ⟨w, _, hwe⟩
        exact hwe ▸ valToStr_isStr w
      · intro hf
        exact absurd hf hnmemf
      · intro _ hl
        rw [← haliasf2, halias] at hl
        cases hl
      · intro nm' t' hl' _
        rw [← haliasf2, halias] at hl'
        injection hl' with h1 h2
        subst h1
        refine ⟨ac, by rw [← hgf2nm]; exact hac, ?_⟩
        apply forall₂_map_self
        intro v _
        constructor
        · intro hv
          rw [hv]
          rfl
        · intro s hv
          rw [hv]
          rfl

theorem carregar_names3 {f f3 : Frame} {c0 : List Val}
    (hAno : "Ano" ∈ colNames f)
    (hcounts : stepCounts (stepCorede (renameCols mapaColunas
      (setCol f "Ano" (c0.map toNumericVal)))) = some f3) :
    colNames f3 = (colNames f).map (renameName mapaColunas) ∨
      colNames f3 = (colNames f).map (renameName mapaColunas) ++ ["COREDE"] := by
  rcases stepCounts_some hcounts with ⟨fa, fb, fc, ha, hb, hc, hd⟩
  rcases stepCount_some ha with ⟨ca0, ca', hgca, _, hfa⟩
  rcases stepCount_some hb with ⟨cb0, cb', hgcb, _, hfb⟩
  rcases stepCount_some hc with ⟨cc0, cc', hgcc, _, hfc⟩
  rcases stepCount_some hd with ⟨cd0, cd', hgcd, _, hfd⟩
  have hnames2 : colNames (renameCols mapaColunas
      (setCol f "Ano" (c0.map toNumericVal))) =
      (colNames f).map (renameName mapaColunas) := by
    rw [colNames_renameCols, colNames_setCol_of_mem _ hAno]
  have hn3 : colNames f3 = colNames (stepCorede (renameCols mapaColunas
      (setCol f "Ano" (c0.map toNumericVal)))) := by
    rw [hfd, colNames_setCol_of_mem _ (mem_colNames_of_getCol hgcd),
      hfc, colNames_setCol_of_mem _ (mem_colNames_of_getCol hgcc),
      hfb, colNames_setCol_of_mem _ (mem_colNames_of_getCol hgcb),
      hfa, colNames_setCol_of_mem _ (mem_colNames_of_getCol hgca)]
  rcases stepCorede_colNames (renameCols mapaColunas
      (setCol f "Ano" (c0.map toNumericVal))) with heq | ⟨_, happ⟩
  · exact Or.inl (hn3.trans (heq.trans hnames2))
  · refine Or.inr (hn3.trans (happ.trans ?_))
    rw [hnames2]

theorem mem_colNames_f3_iff {f f3 : Frame} {c0 : List Val} {n : String}
    (hAno : "Ano" ∈ colNames f)
    (hcounts : stepCounts (stepCorede (renameCols mapaColunas
      (setCol f "Ano" (c0.map toNumericVal)))) = some f3)
    (h1 : renameName mapaColunas n = n)
    (h2 : ∀ s, renameName mapaColunas s = n → s = n)
    (hC : n ≠ "COREDE") :
    n ∈ colNames f3 ↔ n ∈ colNames f := by
  rcases carregar_names3 hAno hcounts with he | he
  · rw [he]
    exact mem_map_rename_iff h1 h2
  · rw [he]
    constructor
    · intro hm
      rcases List.mem_append.mp hm with hm1 | hm2
      · exact (mem_map_rename_iff h1 h2).mp hm1
      · exact absurd (List.mem_singleton.mp hm2) hC
    · intro hm
      exact List.mem_append.mpr (Or.inl ((mem_map_rename_iff h1 h2).mpr hm))

theorem filter_colNames_f3 {f f3 : Frame} {c0 : List Val} {P : String → Bool}
    (hAno : "Ano" ∈ colNames f)
    (hcounts : stepCounts (stepCorede (renameCols mapaColunas
      (setCol f "Ano" (c0.map toNumericVal)))) = some f3)
    (hKey : ∀ q ∈ mapaColunas, P q.1 = false)
    (hTar : ∀ q ∈ mapaColunas, P q.2 = false)
    (hC : P "COREDE" = false) :
    (colNames f3).filter P = (colNames f).filter P := by
  rcases carregar_names3 hAno hcounts with he | he
  · rw [he]
    exact filter_map_rename hKey hTar _
  · rw [he, filter_append_false hC, filter_map_rename hKey hTar]

theorem getCol_f3_eq {f f3 : Frame} {c0 : List Val} {nm : String}
    (hcounts : stepCounts (stepCorede (renameCols mapaColunas
      (setCol f "Ano" (c0.map toNumericVal)))) = some f3)
    (hd1 : nm ≠ "Doutorado - Matriculado")
    (hd2 : nm ≠ "Doutorado Profissional - Matriculado")
    (hd3 : nm ≠ "Mestrado - Matriculado")
    (hd4 : nm ≠ "Mestrado Profissional - Matriculado")
    (hC : nm ≠ "COREDE")
    (h1 : renameName mapaColunas nm = nm)
    (h2 : ∀ s, renameName mapaColunas s = nm → s = nm)
    (hA : nm ≠ "Ano") :
    getCol f3 nm = getCol f nm := by
  rcases stepCounts_some hcounts with ⟨fa, fb, fc, ha, hb, hc, hd⟩
  rcases stepCount_some ha with ⟨ca0, ca', hgca, _, hfa⟩
  rcases stepCount_some hb with ⟨cb0, cb', hgcb, _, hfb⟩
  rcases stepCount_some hc with ⟨cc0, cc', hgcc, _, hfc⟩
  rcases stepCount_some hd with ⟨cd0, cd', hgcd, _, hfd⟩
  rw [hfd, getCol_setCol_ne _ _ hd4, hfc, getCol_setCol_ne _ _ hd3,
    hfb, getCol_setCol_ne _ _ hd2, hfa, getCol_setCol_ne _ _ hd1,
    getCol_stepCorede_ne hC, getCol_renameCols _ h1 h2,
    getCol_setCol_ne f _ hA]

theorem n_f3_eq {f f3 : Frame} {c0 : List Val}
    (hcounts : stepCounts (stepCorede (renameCols mapaColunas
      (setCol f "Ano" (c0.map toNumericVal)))) = some f3) : f3.n = f.n := by
  rcases stepCounts_some hcounts with ⟨fa, fb, fc, ha, hb, hc, hd⟩
  rw [n_stepCount hd, n_stepCount hc, n_stepCount hb, n_stepCount ha,
    n_stepCorede, n_renameCols, n_setCol]

theorem mem_stepIes_iff {f : Frame} {n : String} (hne : n ≠ "IES") :
    n ∈ colNames (stepIes f) ↔ n ∈ colNames f := by
  rcases stepIes_colNames f with he | ⟨_, he⟩
  · rw [he]
  · rw [he]
    constructor
    · intro hm
      rcases List.mem_append.mp hm with hm1 | hm2
      · exact hm1
      · exact absurd (List.mem_singleton.mp hm2) hne
    · intro hm
      exact List.mem_append.mpr (Or.inl hm)

theorem statusAliases_stepIes (f : Frame) :
    statusAliases (stepIes f) = statusAliases f := by
  unfold statusAliases
  rcases stepIes_colNames f with he | ⟨_, he⟩
  · rw [he]
  · rw [he]
    exact filter_append_false (by decide) _

theorem stepIes_cases {f f3 : Frame} {c0 : List Val}
    (hAno : "Ano" ∈ colNames f)
    (hcounts : stepCounts (stepCorede (renameCols mapaColunas
      (setCol f "Ano" (c0.map toNumericVal)))) = some f3) :
    ∃ ci, getCol (stepIes f3) "IES" = some ci ∧
      ("IES" ∈ colNames f → getCol f "IES" = some ci) ∧
      (¬ "IES" ∈ colNames f → iesAliases f = [] →
        ci = List.replicate f.n (Val.str "Não informado")) ∧
      (∀ nm t, iesAliases f = nm :: t → ¬ "IES" ∈ colNames f →
        getCol f nm = some ci) := by
  have hmemI : "IES" ∈ colNames f3 ↔ "IES" ∈ colNames f :=
    mem_colNames_f3_iff hAno hcounts (by decide)
      (renameName_preimage (by decide)) (by decide)
  have haliasI : iesAliases f3 = iesAliases f := by
    unfold iesAliases
    exact filter_colNames_f3 hAno hcounts (by decide) (by decide) (by decide)
  by_cases hm : "IES" ∈ colNames f
  · have hm3 : "IES" ∈ colNames f3 := hmemI.mpr hm
    have hg : getCol f3 "IES" = getCol f "IES" :=
      getCol_f3_eq hcounts (by decide) (by decide) (by decide) (by decide)
        (by decide) (by decide) (renameName_preimage (by decide)) (by decide)
    rcases getCol_isSome_of_mem hm with ⟨cf, hcf⟩
    refine ⟨cf, ?_, ?_, ?_, ?_⟩
    · rw [stepIes_of_mem hm3, hg, hcf]
    · intro _
      exact hcf
    · intro hnm _
      exact absurd hm hnm
    · intro nm t _ hnm
      exact absurd hm hnm
  · have hm3 : ¬ "IES" ∈ colNames f3 := fun h3 => hm (hmemI.mp h3)
    have hcont : ¬ ((colNames f3).contains "IES" = true) := by
      simpa [List.elem_iff] using hm3
    cases halias : iesAliases f with
    | nil =>
      have hstep : stepIes f3 = setCol f3 "IES"
          (List.replicate f3.n (Val.str "Não informado")) := by
        unfold stepIes
        rw [if_neg hcont, haliasI, halias]
      have hn : f3.n = f.n := n_f3_eq hcounts
      refine ⟨List.replicate f.n (Val.str "Não informado"), ?_, ?_, ?_, ?_⟩
      · rw [hstep, hn, getCol_setCol_self]
      · intro h1
        exact absurd h1 hm
      · intro _ _
        rfl
      · intro nm t hl _
        cases hl
    | cons nm t =>
      have hmemAl : nm ∈ iesAliases f := by
        rw [halias]
        exact List.mem_cons_self nm t
      unfold iesAliases at hmemAl
      have hnmMemf : nm ∈ colNames f := List.mem_of_mem_filter hmemAl
      have hpred : (containsSubstr nm "IES" ||
          containsSubstr nm "Instituição") = true := by
        have h0 := List.of_mem_filter hmemAl
        simpa using h0
      have hne : ∀ x : String, (containsSubstr x "IES" ||
          containsSubstr x "Instituição") = false → nm ≠ x := by
        intro x hx he
        rw [he] at hpred
        rw [hpred] at hx
        cases hx
      have hnmKey : ∀ q ∈ mapaColunas, q.1 ≠ nm := by
        intro q hq he
        have h1 := (by decide : ∀ q ∈ mapaColunas,
          (containsSubstr q.1 "IES" ||
            containsSubstr q.1 "Instituição") = false) q hq
        rw [he, hpred] at h1
        cases h1
      have hnmTar : ∀ q ∈ mapaColunas, q.2 ≠ nm := by
        intro q hq he
        have h1 := (by decide : ∀ q ∈ mapaColunas,
          (containsSubstr q.2 "IES" ||
            containsSubstr q.2 "Instituição") = false) q hq
        rw [he, hpred] at h1
        cases h1
      have hg : getCol f3 nm = getCol f nm :=
        getCol_f3_eq hcounts (hne _ (by decide)) (hne _ (by decide))
          (hne _ (by decide)) (hne _ (by decide)) (hne _ (by decide))
          (renameName_eq_of_no_key hnmKey) (renameName_preimage hnmTar)
          (hne _ (by decide))
      rcases getCol_isSome_of_mem hnmMemf with ⟨ac, hac⟩
      have hstep : stepIes f3 = setCol f3 "IES" ac := by
        unfold stepIes
        rw [if_neg hcont, haliasI, halias]
        show setCol f3 "IES" ((getCol f3 nm).getD []) = _
        rw [hg, hac]
        rfl
      refine ⟨ac, ?_, ?_, ?_, ?_⟩
      · rw [hstep, getCol_setCol_self]
      · intro h1
        exact absurd h1 hm
      · intro _ hl
        cases hl
      · intro nm' t' hl' _
        injection hl' with e1 e2
        subst e1
        exact hac

theorem stepStatus_cases {f f3 : Frame} {c0 : List Val}
    (hAno : "Ano" ∈ colNames f)
    (hcounts : stepCounts (stepCorede (renameCols mapaColunas
      (setCol f "Ano" (c0.map toNumericVal)))) = some f3) :
    ∃ cs, getCol (stepStatusJuridico (stepIes f3)) "Status Jurídico" =
        some cs ∧
      ("Status Jurídico" ∈ colNames f →
        getCol f "Status Jurídico" = some cs) ∧
      (¬ "Status Jurídico" ∈ colNames f → statusAliases f = [] →
        cs = List.replicate f.n (Val.str "Não informado")) ∧
      (∀ nm t, statusAliases f = nm :: t →
        ¬ "Status Jurídico" ∈ colNames f → getCol f nm = some cs) := by
  have hmemS3 : "Status Jurídico" ∈ colNames f3 ↔
      "Status Jurídico" ∈ colNames f :=
    mem_colNames_f3_iff hAno hcounts (by decide)
      (renameName_preimage (by decide)) (by decide)
  have hmemSI : "Status Jurídico" ∈ colNames (stepIes f3) ↔
      "Status Jurídico" ∈ colNames f3 :=
    mem_stepIes_iff (by decide)
  have haliasS3 : statusAliases f3 = statusAliases f := by
    unfold statusAliases
    exact filter_colNames_f3 hAno hcounts (by decide) (by decide) (by decide)
  have haliasSI : statusAliases (stepIes f3) = statusAliases f :=
    (statusAliases_stepIes f3).trans haliasS3
  by_cases hm : "Status Jurídico" ∈ colNames f
  · have hmI : "Status Jurídico" ∈ colNames (stepIes f3) :=
      hmemSI.mpr (hmemS3.mpr hm)
    have hgS : getCol (stepIes f3) "Status Jurídico" =
        getCol f "Status Jurídico" := by
      rw [getCol_stepIes_ne (by decide)]
      exact getCol_f3_eq hcounts (by decide) (by decide) (by decide)
        (by decide) (by decide) (by decide)
        (renameName_preimage (by decide)) (by decide)
    rcases getCol_isSome_of_mem hm with ⟨cf, hcf⟩
    refine ⟨cf, ?_, ?_, ?_, ?_⟩
    · rw [stepStatus_of_mem hmI, hgS, hcf]
    · intro _
      exact hcf
    · intro hnm _
      exact absurd hm hnm
    · intro nm t _ hnm
      exact absurd hm hnm
  · have hmI : ¬ "Status Jurídico" ∈ colNames (stepIes f3) :=
      fun h3 => hm (hmemS3.mp (hmemSI.mp h3))
    have hcont :
        ¬ ((colNames (stepIes f3)).contains "Status Jurídico" = true) := by
      simpa [List.elem_iff] using hmI
    cases halias : statusAliases f with
    | nil =>
      have hstep : stepStatusJuridico (stepIes f3) = setCol (stepIes f3)
          "Status Jurídico"
          (List.replicate (stepIes f3).n (Val.str "Não informado")) := by
        unfold stepStatusJuridico
        rw [if_neg hcont, haliasSI, halias]
      have hn : (stepIes f3).n = f.n := (n_stepIes f3).trans (n_f3_eq hcounts)
      refine ⟨List.replicate f.n (Val.str "Não informado"), ?_, ?_, ?_, ?_⟩
      · rw [hstep, hn, getCol_setCol_self]
      · intro h1
        exact absurd h1 hm
      · intro _ _
        rfl
      · intro nm t hl _
        cases hl
    | cons nm t =>
      have hmemAl : nm ∈ statusAliases f := by
        rw [halias]
        exact List.mem_cons_self nm t
      unfold statusAliases at hmemAl
      have hnmMemf : nm ∈ colNames f := List.mem_of_mem_filter hmemAl
      have hpred : (containsSubstr nm "Status" ||
          containsSubstr nm "Jurídico" ||
          containsSubstr nm "Categoria") = true := by
        have h0 := List.of_mem_filter hmemAl
        simpa using h0
      have hne : ∀ x : String, (containsSubstr x "Status" ||
          containsSubstr x "Jurídico" ||
          containsSubstr x "Categoria") = false → nm ≠ x := by
        intro x hx he
        rw [he] at hpred
        rw [hpred] at hx
        cases hx
      have hnmKey : ∀ q ∈ mapaColunas, q.1 ≠ nm := by
        intro q hq he
        have h1 := (by decide : ∀ q ∈ mapaColunas,
          (containsSubstr q.1 "Status" || containsSubstr q.1 "Jurídico" ||
            containsSubstr q.1 "Categoria") = false) q hq
        rw [he, hpred] at h1
        cases h1
      have hnmTar : ∀ q ∈ mapaColunas, q.2 ≠ nm := by
        intro q hq he
        have h1 := (by decide : ∀ q ∈ mapaColunas,
          (containsSubstr q.2 "Status" || containsSubstr q.2 "Jurídico" ||
            containsSubstr q.2 "Categoria") = false) q hq
        rw [he, hpred] at h1
        cases h1
      have hgnm : getCol (stepIes f3) nm = getCol f nm := by
        rw [getCol_stepIes_ne (hne _ (by decide))]
        exact getCol_f3_eq hcounts (hne _ (by decide)) (hne _ (by decide))
          (hne _ (by decide)) (hne _ (by decide)) (hne _ (by decide))
          (renameName_eq_of_no_key hnmKey) (renameName_preimage hnmTar)
          (hne _ (by decide))
      rcases getCol_isSome_of_mem hnmMemf with ⟨ac, hac⟩
      have hstep : stepStatusJuridico (stepIes f3) = setCol (stepIes f3)
          "Status Jurídico" ac := by
        unfold stepStatusJuridico
        rw [if_neg hcont, haliasSI, halias]
        show setCol (stepIes f3) "Status Jurídico"
            ((getCol (stepIes f3) nm).getD []) = _
        rw [hgnm, hac]
        rfl
      refine ⟨ac, ?_, ?_, ?_, ?_⟩
      · rw [hstep, getCol_setCol_self]
      · intro h1
        exact absurd h1 hm
      · intro _ hl
        cases hl
      · intro nm' t' hl' _
        injection hl' with e1 e2
        subst e1
        exact hac

/-- C4: after a successful normalization the columns `COREDE`, `IES` and
`Status Jurídico` are present and hold no nulls, resolved by the three-tier
policy (exact canonical name, then first fuzzy-named alternative, then a
synthesized default column).  Nulls in an exact `COREDE` column become the
string `"NA"`, but nulls in an adopted fuzzy-named COREDE column become the
string `"nan"` (there is no `fillna` on that tier, only `astype(str)`), so
the original claim's unconditional `"NA"` default is refuted; for `IES` and
`Status Jurídico` every null becomes `"Não informado"` and every non-null
cell is kept, on both the exact and the adopted tier. -/
theorem C4_three_tier {f g : Frame} (h : carregar_dados f = some g) :
    (∃ cc, getCol g "COREDE" = some cc ∧ (∀ v ∈ cc, ∃ s, v = Val.str s) ∧
      ("COREDE" ∈ colNames f →
        ∃ c, getCol f "COREDE" = some c ∧
          List.Forall₂ (fun v w => (v = Val.null → w = Val.str "NA") ∧
            (∀ s, v = Val.str s → w = Val.str s)) c cc) ∧
      (¬ "COREDE" ∈ colNames f → coredeAliases f = [] →
        cc = List.replicate f.n (Val.str "NA")) ∧
      (∀ nm t, coredeAliases f = nm :: t → ¬ "COREDE" ∈ colNames f →
        ∃ ac, getCol f nm = some ac ∧
          List.Forall₂ (fun v w => (v = Val.null → w = Val.str "nan") ∧
            (∀ s, v = Val.str s → w = Val.str s)) ac cc)) ∧
    (∃ ci, getCol g "IES" = some ci ∧ (∀ v ∈ ci, v ≠ Val.null) ∧
      ("IES" ∈ colNames f →
        ∃ c, getCol f "IES" = some c ∧
          List.Forall₂ (fun v w =>
            (v = Val.null → w = Val.str "Não informado") ∧
            (v ≠ Val.null → w = v)) c ci) ∧
      (¬ "IES" ∈ colNames f → iesAliases f = [] →
        ci = List.replicate f.n (Val.str "Não informado")) ∧
      (∀ nm t, iesAliases f = nm :: t → ¬ "IES" ∈ colNames f →
        ∃ ac, getCol f nm = some ac ∧
          List.Forall₂ (fun v w =>
            (v = Val.null → w = Val.str "Não informado") ∧
            (v ≠ Val.null → w = v)) ac ci)) ∧
    (∃ cs, getCol g "Status Jurídico" = some cs ∧
      (∀ v ∈ cs, v ≠ Val.null) ∧
      ("Status Jurídico" ∈ colNames f →
        ∃ c, getCol f "Status Jurídico" = some c ∧
          List.Forall₂ (fun v w =>
            (v = Val.null → w = Val.str "Não informado") ∧
            (v ≠ Val.null → w = v)) c cs) ∧
      (¬ "Status Jurídico" ∈ colNames f → statusAliases f = [] →
        cs = List.replicate f.n (Val.str "Não informado")) ∧
      (∀ nm t, statusAliases f = nm :: t →
        ¬ "Status Jurídico" ∈ colNames f →
        ∃ ac, getCol f nm = some ac ∧
          List.Forall₂ (fun v w =>
            (v = Val.null → w = Val.str "Não informado") ∧
            (v ≠ Val.null → w = v)) ac cs)) := by
  rcases carregar_some h with ⟨c0, f3, hc0, hcounts, hgdef⟩
  have hAno : "Ano" ∈ colNames f := mem_colNames_of_getCol hc0
  rcases stepIes_cases hAno hcounts with ⟨ci0, hci0, hI1, hI3, hI2⟩
  rcases stepStatus_cases hAno hcounts with ⟨cs0, hcs0, hS1, hS3, hS2⟩
  have hXg : g = setCol (setCol (stepStatusJuridico (stepIes f3)) "IES"
      (((getCol (stepStatusJuridico (stepIes f3)) "IES").getD []).map
        (fillnaVal (Val.str "Não informado")))) "Status Jurídico"
      (((getCol (setCol (stepStatusJuridico (stepIes f3)) "IES"
        (((getCol (stepStatusJuridico (stepIes f3)) "IES").getD []).map
          (fillnaVal (Val.str "Não informado")))) "Status Jurídico").getD
            []).map (fillnaVal (Val.str "Não informado"))) := hgdef
  have hXI : getCol (stepStatusJuridico (stepIes f3)) "IES" = some ci0 := by
    rw [getCol_stepStatus_ne (by decide)]
    exact hci0
  have hgI : getCol g "IES" =
      some (ci0.map (fillnaVal (Val.str "Não informado"))) := by
    rw [hXg, getCol_setCol_ne _ _ (by decide), getCol_setCol_self, hXI]
    rfl
  have hgS : getCol g "Status Jurídico" =
      some (cs0.map (fillnaVal (Val.str "Não informado"))) := by
    rw [hXg, getCol_setCol_self, getCol_setCol_ne _ _ (by decide), hcs0]
    rfl
  refine ⟨carregar_corede_cases h,
    ⟨ci0.map (fillnaVal (Val.str "Não informado")), hgI, ?_, ?_, ?_, ?_⟩,
    ⟨cs0.map (fillnaVal (Val.str "Não informado")), hgS, ?_, ?_, ?_, ?_⟩⟩
  · intro v hv
    rcases List.mem_map.mp hv with ⟨w, _, hwe⟩
    rw [← hwe]
    exact fillnaVal_ne_null w (fun hx => nomatch hx)
  · intro hm
    refine ⟨ci0, hI1 hm, ?_⟩
    apply forall₂_map_self
    intro v _
    constructor
    · intro hv
      rw [hv]
      rfl
    · intro hv
      exact fillnaVal_of_ne_null _ hv
  · intro hnm hal
    rw [hI3 hnm hal, List.map_replicate]
    rfl
  · intro nm t hal hnm
    refine ⟨ci0, hI2 nm t hal hnm, ?_⟩
    apply forall₂_map_self
    intro v _
    constructor
    · intro hv
      rw [hv]
      rfl
    · intro hv
      exact fillnaVal_of_ne_null _ hv
  · intro v hv
    rcases List.mem_map.mp hv with ⟨w, _, hwe⟩
    rw [← hwe]
    exact fillnaVal_ne_null w (fun hx => nomatch hx)
  · intro hm
    refine ⟨cs0, hS1 hm, ?_⟩
    apply forall₂_map_self
    intro v _
    constructor
    · intro hv
      rw [hv]
      rfl
    · intro hv
      exact fillnaVal_of_ne_null _ hv
  · intro hnm hal
    rw [hS3 hnm hal, List.map_replicate]
    rfl
  · intro nm t hal hnm
    refine ⟨cs0, hS2 nm t hal hnm, ?_⟩
    apply forall₂_map_self
    intro v _
    constructor
    · intro hv
      rw [hv]
      rfl
    · intro hv
      exact fillnaVal_of_ne_null _ hv

/-- C4 counterexample: `frameAliasCorede` has no `COREDE` column, only the
fuzzy-named `COREDE_NOME` whose single cell is null; normalization adopts
that column with `astype(str)` and no `fillna`, so the null becomes the
string `"nan"`, not the claimed default literal `"NA"`. -/
theorem C4_counterexample :
    carregar_dados frameAliasCorede = some frameAliasCoredeOut ∧
    ¬ "COREDE" ∈ colNames frameAliasCorede ∧
    coredeAliases frameAliasCorede = ["COREDE_NOME"] ∧
    getCol frameAliasCorede "COREDE_NOME" = some [Val.null] ∧
    getCol frameAliasCoredeOut "COREDE" = some [Val.str "nan"] ∧
    Val.str "nan" ≠ Val.str "NA" := by decide

/-- Witness for `C4_three_tier` on the concrete frame `frameAliasCorede`,
whose normalization succeeds with output `frameAliasCoredeOut`. -/
theorem C4_witness :
    carregar_dados frameAliasCorede = some frameAliasCoredeOut ∧
    ((∃ cc, getCol frameAliasCoredeOut "COREDE" = some cc ∧
      (∀ v ∈ cc, ∃ s, v = Val.str s) ∧
      ("COREDE" ∈ colNames frameAliasCorede →
        ∃ c, getCol frameAliasCorede "COREDE" = some c ∧
          List.Forall₂ (fun v w => (v = Val.null → w = Val.str "NA") ∧
            (∀ s, v = Val.str s → w = Val.str s)) c cc) ∧
      (¬ "COREDE" ∈ colNames frameAliasCorede →
        coredeAliases frameAliasCorede = [] →
        cc = List.replicate frameAliasCorede.n (Val.str "NA")) ∧
      (∀ nm t, coredeAliases frameAliasCorede = nm :: t →
        ¬ "COREDE" ∈ colNames frameAliasCorede →
        ∃ ac, getCol frameAliasCorede nm = some ac ∧
          List.Forall₂ (fun v w => (v = Val.null → w = Val.str "nan") ∧
            (∀ s, v = Val.str s → w = Val.str s)) ac cc)) ∧
    (∃ ci, getCol frameAliasCoredeOut "IES" = some ci ∧
      (∀ v ∈ ci, v ≠ Val.null) ∧
      ("IES" ∈ colNames frameAliasCorede →
        ∃ c, getCol frameAliasCorede "IES" = some c ∧
          List.Forall₂ (fun v w =>
            (v = Val.null → w = Val.str "Não informado") ∧
            (v ≠ Val.null → w = v)) c ci) ∧
      (¬ "IES" ∈ colNames frameAliasCorede → iesAliases frameAliasCorede = [] →
        ci = List.replicate frameAliasCorede.n (Val.str "Não informado")) ∧
      (∀ nm t, iesAliases frameAliasCorede = nm :: t →
        ¬ "IES" ∈ colNames frameAliasCorede →
        ∃ ac, getCol frameAliasCorede nm = some ac ∧
          List.Forall₂ (fun v w =>
            (v = Val.null → w = Val.str "Não informado") ∧
            (v ≠ Val.null → w = v)) ac ci)) ∧
    (∃ cs, getCol frameAliasCoredeOut "Status Jurídico" = some cs ∧
      (∀ v ∈ cs, v ≠ Val.null) ∧
      ("Status Jurídico" ∈ colNames frameAliasCorede →
        ∃ c, getCol frameAliasCorede "Status Jurídico" = some c ∧
          List.Forall₂ (fun v w =>
            (v = Val.null → w = Val.str "Não informado") ∧
            (v ≠ Val.null → w = v)) c cs) ∧
      (¬ "Status Jurídico" ∈ colNames frameAliasCorede →
        statusAliases frameAliasCorede = [] →
        cs = List.replicate frameAliasCorede.n (Val.str "Não informado")) ∧
      (∀ nm t, statusAliases frameAliasCorede = nm :: t →
        ¬ "Status Jurídico" ∈ colNames frameAliasCorede →
        ∃ ac, getCol frameAliasCorede nm = some ac ∧
          List.Forall₂ (fun v w =>
            (v = Val.null → w = Val.str "Não informado") ∧
            (v ≠ Val.null → w = v)) ac cs))) :=
  ⟨by decide, C4_three_tier (by decide)⟩
